import Mathlib

/-!
Verification development for ahkab's symbolic small-signal analysis module
(`symbolic.py`): a shallow embedding of the symbolic MNA assembler, the
substitution engine, the transfer-function deriver and the substitution
parser, together with theorems settling the specification's claims.

Conventions of the embedding:
* sympy expressions are modelled by the inductive type `Expr` (numeric
  literals are exact rationals, symbols carry their assumption flags).
* sympy matrices are modelled by `Mat`: explicit row/column counts plus a
  total entry function; `Mat.set` is entrywise assignment, faithful to the
  sequential in-place updates of the source.
* The external algebra engine's generic solver (`sympy.solve`) is taken as
  a function parameter wherever the source calls it; the deterministic
  engine operations (`subs`, `diff`, `together`, `fraction`) are modelled
  concretely.
* Python `dict`s keyed by symbols are association lists with
  replace-or-append update (`dictUpdate`), preserving insertion order as
  Python dicts do.
-/

namespace AhkabSymbolic

/-- A sympy symbol: its name together with the assumption flags that were
actually forwarded to the engine.  Two symbols are identical exactly when
name and assumptions coincide, as in sympy. -/
structure Sym where
  name : String
  real : Bool
  positive : Bool
  complex : Bool
deriving DecidableEq, Repr

/-- The keyword options a caller hands to `_symbol_factory`
(`real=True`, `positive=True`, `complex=True`); absent keywords are
`false`. -/
structure SymOpts where
  real : Bool := false
  positive : Bool := false
  complex : Bool := false
deriving DecidableEq, Repr

/-- The module-level `enabled_assumptions` dictionary of `symbolic.py`,
line 87: `{'real':False, 'positive':False, 'complex':True}`. -/
structure AssumptionFlags where
  real : Bool
  positive : Bool
  complex : Bool
deriving DecidableEq, Repr

def enabled_assumptions : AssumptionFlags :=
  { real := false, positive := false, complex := true }

/-- Python `str.upper()` (character-wise upper-casing). -/
def strUpper (s : String) : String := String.mk (s.data.map Char.toUpper)

/-- Python `str[n:]` (drop the first `n` characters). -/
def strDrop (s : String) (n : Nat) : String := String.mk (s.data.drop n)

/-- Split a character list at every occurrence of `sep`: Python
`str.split(sep)` for a one-character separator. -/
def splitOnChar (sep : Char) : List Char → List (List Char)
  | [] => [[]]
  | c :: rest =>
    match splitOnChar sep rest with
    | [] => [[c]]
    | h :: t => if c = sep then [] :: h :: t else (c :: h) :: t

/-- `_symbol_factory(name, **options)`: keeps an option only when the
caller passed it truthy AND it is in the enabled-assumptions allow-list,
then builds `sympy.Symbol(name.upper(), **filtered_options)`. -/
def symbol_factory (name : String) (options : SymOpts) : Sym :=
  { name := strUpper name
    real := options.real && enabled_assumptions.real
    positive := options.positive && enabled_assumptions.positive
    complex := options.complex && enabled_assumptions.complex }

/-- The module-level frequency variable: `s = sympy.Symbol('s', complex=True)`.
Built directly with `sympy.Symbol`, not through the factory, so the
`complex` assumption is kept and the name stays lower-case. -/
def sVar : Sym := { name := "s", real := false, positive := false, complex := true }

/-- Symbolic expressions: the fragment of sympy expressions the module
builds (rational literals, symbols, sums, differences, products, negation
and quotients). -/
inductive Expr where
  | num : ℚ → Expr
  | sym : Sym → Expr
  | add : Expr → Expr → Expr
  | sub : Expr → Expr → Expr
  | mul : Expr → Expr → Expr
  | neg : Expr → Expr
  | div : Expr → Expr → Expr
deriving DecidableEq, Repr

/-- Does the symbol `x` occur (free) in the expression? -/
def occursSym (x : Sym) : Expr → Bool
  | .num _ => false
  | .sym y => x == y
  | .add a b => occursSym x a || occursSym x b
  | .sub a b => occursSym x a || occursSym x b
  | .mul a b => occursSym x a || occursSym x b
  | .neg a => occursSym x a
  | .div a b => occursSym x a || occursSym x b

/-- Replace every occurrence of the symbol `x` by `v` (one sweep): the
effect of a single sympy `expr._subs(x, v)` step for a symbol key. -/
def replaceSym (x : Sym) (v : Expr) : Expr → Expr
  | .num q => .num q
  | .sym y => if x == y then v else .sym y
  | .add a b => .add (replaceSym x v a) (replaceSym x v b)
  | .sub a b => .sub (replaceSym x v a) (replaceSym x v b)
  | .mul a b => .mul (replaceSym x v a) (replaceSym x v b)
  | .neg a => .neg (replaceSym x v a)
  | .div a b => .div (replaceSym x v a) (replaceSym x v b)

/-- Insert one substitution pair into a name-sorted list (insertion sort
step).  Models sympy's canonical ordering of an unordered substitution
mapping: symbol keys all have node count 1, so they are ordered by
`default_sort_key`, i.e. by name. -/
def insertSub (p : Sym × Expr) : List (Sym × Expr) → List (Sym × Expr)
  | [] => [p]
  | q :: rest =>
    if compare p.1.name q.1.name == Ordering.gt then q :: insertSub p rest
    else p :: q :: rest

/-- Sort a substitution mapping into sympy's canonical key order. -/
def sortSubs : List (Sym × Expr) → List (Sym × Expr)
  | [] => []
  | p :: rest => insertSub p (sortSubs rest)

/-- `expr.subs(mapping)` for a mapping with symbol keys: sympy sorts the
pairs of an unordered mapping canonically and then applies them
SEQUENTIALLY (each `_subs` pass rewrites the result of the previous one);
see `sympy.core.basic.Basic.subs`, whose documentation illustrates the
sequential behaviour with `(x + y).subs([(x, y), (y, x)]) == 2*x`. -/
def subst (mapping : List (Sym × Expr)) (e : Expr) : Expr :=
  (sortSubs mapping).foldl (fun acc p => replaceSym p.1 p.2 acc) e

/-- Python `dict.update({k: v})` on an insertion-ordered association list:
replace the value if the key is present, else append. -/
def dictUpdate {α β : Type} [DecidableEq α] (d : List (α × β)) (k : α) (v : β) :
    List (α × β) :=
  if d.any (fun p => p.1 == k) then
    d.map (fun p => if p.1 == k then (k, v) else p)
  else d ++ [(k, v)]

/-- A sympy matrix: row/column counts plus a total entry function.
Entries outside the bounds are irrelevant (the constructors below keep
them zero). -/
structure Mat where
  rows : Nat
  cols : Nat
  entry : Nat → Nat → Expr

/-- `sympy.matrices.zeros` (`smzeros`). -/
def smzeros (r c : Nat) : Mat := ⟨r, c, fun _ _ => Expr.num 0⟩

/-- In-place entry assignment `m[r, c] = v`. -/
def Mat.set (m : Mat) (r c : Nat) (v : Expr) : Mat :=
  { m with entry := fun i j => if i = r then (if j = c then v else m.entry i j) else m.entry i j }

/-- `_expand_matrix(mat, add_a_row, add_a_col)`: append a zero row and/or a
zero column (sympy `row_insert` at the bottom / `col_insert` at the
right). -/
def expand_matrix (mat : Mat) (add_a_row add_a_col : Bool) : Mat :=
  let mat1 :=
    if add_a_row then
      { rows := mat.rows + 1, cols := mat.cols
        entry := fun i j => if i < mat.rows then mat.entry i j else Expr.num 0 }
    else mat
  if add_a_col then
    { rows := mat1.rows, cols := mat1.cols + 1
      entry := fun i j => if j < mat1.cols then mat1.entry i j else Expr.num 0 }
  else mat1

/-- `mna[1:, 1:]` — drop the reference node's row and column. -/
def Mat.dropFirstRowCol (m : Mat) : Mat :=
  ⟨m.rows - 1, m.cols - 1, fun i j => m.entry (i + 1) (j + 1)⟩

/-- `N[1:, :]` — drop the reference node's row. -/
def Mat.dropFirstRow (m : Mat) : Mat :=
  ⟨m.rows - 1, m.cols, fun i j => m.entry (i + 1) j⟩

/-- Symbolic matrix product. -/
def Mat.matMul (A B : Mat) : Mat :=
  ⟨A.rows, B.cols, fun i j =>
    (List.range A.cols).foldl
      (fun acc k => Expr.add acc (Expr.mul (A.entry i k) (B.entry k j)))
      (Expr.num 0)⟩

/-- Symbolic matrix sum. -/
def Mat.matAdd (A B : Mat) : Mat :=
  ⟨A.rows, A.cols, fun i j => Expr.add (A.entry i j) (B.entry i j)⟩

/-- Entrywise `Matrix.subs(mapping)`. -/
def Mat.subsAll (m : Mat) (mapping : List (Sym × Expr)) : Mat :=
  { m with entry := fun i j => subst mapping (m.entry i j) }

/-- `_to_real_list(M)`: the single column of `M` as a flat list. -/
def to_real_list (M : Mat) : List Expr :=
  (List.range M.rows).map (fun i => M.entry i 0)

/-- An inductor-coupling device (`devices.InductorCoupling`): its
`part_id`, symbolic flag, coupling value `K`, and the identifiers of the
two inductors it couples. -/
structure Coupling where
  part_id : String
  is_symbolic : Bool
  K : ℚ
  ind1 : String
  ind2 : String
deriving DecidableEq, Repr

/-- `cd.get_other_inductor(part_id)`: the identifier of the coupled
inductor other than `part_id`. -/
def Coupling.get_other_inductor (cd : Coupling) (my_id : String) : String :=
  if cd.ind1 = my_id then cd.ind2 else cd.ind1

/-- The device classes `symbolic.py` dispatches on.  `mostrans` covers the
`mosq`/`ekv` small-signal transistor branch (terminals drain `n1`, gate
`ng`, source `n2`); `diode` the diode branch; `other` models an extension
device carrying only terminals and the `is_voltage_defined` attribute
(the circuit package admits user device classes flagged voltage-defined
that are none of the four recognized ones). -/
inductive Element where
  | resistor (part_id : String) (n1 n2 : Nat) (is_symbolic : Bool) (value : ℚ)
  | capacitor (part_id : String) (n1 n2 : Nat) (is_symbolic : Bool) (value : ℚ)
  | inductor (part_id : String) (n1 n2 : Nat) (is_symbolic : Bool) (L : ℚ)
      (coupling_devices : List Coupling)
  | vsource (part_id : String) (n1 n2 : Nat) (is_symbolic : Bool) (dc_value : ℚ)
  | isource (part_id : String) (n1 n2 : Nat) (is_symbolic : Bool) (dc_value : ℚ)
  | evsource (part_id : String) (n1 n2 sn1 sn2 : Nat) (is_symbolic : Bool) (alpha : ℚ)
  | hvsource (part_id : String) (n1 n2 : Nat) (source_id : String)
      (is_symbolic : Bool) (alpha : ℚ)
  | gisource (part_id : String) (n1 n2 sn1 sn2 : Nat) (is_symbolic : Bool) (alpha : ℚ)
  | fisource (part_id : String) (n1 n2 : Nat) (source_id : String)
      (is_symbolic : Bool) (alpha : ℚ)
  | inductor_coupling (part_id : String)
  | mostrans (part_id : String) (n1 ng n2 : Nat)
  | diode (part_id : String) (n1 n2 : Nat)
  | other (part_id : String) (n1 n2 : Nat) (is_voltage_defined : Bool)
deriving DecidableEq, Repr

/-- `elem.part_id`. -/
def Element.part_id : Element → String
  | .resistor pid _ _ _ _ => pid
  | .capacitor pid _ _ _ _ => pid
  | .inductor pid _ _ _ _ _ => pid
  | .vsource pid _ _ _ _ => pid
  | .isource pid _ _ _ _ => pid
  | .evsource pid _ _ _ _ _ _ => pid
  | .hvsource pid _ _ _ _ _ => pid
  | .gisource pid _ _ _ _ _ _ => pid
  | .fisource pid _ _ _ _ _ => pid
  | .inductor_coupling pid => pid
  | .mostrans pid _ _ _ => pid
  | .diode pid _ _ => pid
  | .other pid _ _ _ => pid

/-- `elem.n1` (0 for the coupling pseudo-device, which has no terminals). -/
def Element.n1 : Element → Nat
  | .resistor _ n1 _ _ _ => n1
  | .capacitor _ n1 _ _ _ => n1
  | .inductor _ n1 _ _ _ _ => n1
  | .vsource _ n1 _ _ _ => n1
  | .isource _ n1 _ _ _ => n1
  | .evsource _ n1 _ _ _ _ _ => n1
  | .hvsource _ n1 _ _ _ _ => n1
  | .gisource _ n1 _ _ _ _ _ => n1
  | .fisource _ n1 _ _ _ _ => n1
  | .inductor_coupling _ => 0
  | .mostrans _ n1 _ _ => n1
  | .diode _ n1 _ => n1
  | .other _ n1 _ _ => n1

/-- `elem.n2`. -/
def Element.n2 : Element → Nat
  | .resistor _ _ n2 _ _ => n2
  | .capacitor _ _ n2 _ _ => n2
  | .inductor _ _ n2 _ _ _ => n2
  | .vsource _ _ n2 _ _ => n2
  | .isource _ _ n2 _ _ => n2
  | .evsource _ _ n2 _ _ _ _ => n2
  | .hvsource _ _ n2 _ _ _ => n2
  | .gisource _ _ n2 _ _ _ _ => n2
  | .fisource _ _ n2 _ _ _ => n2
  | .inductor_coupling _ => 0
  | .mostrans _ _ _ n2 => n2
  | .diode _ _ n2 => n2
  | .other _ _ n2 _ => n2

/-- The circuit instance, an external collaborator of the module.
Modelled from the spec: "an ordered collection of node identifiers (one
designated reference/ground node) and an ordered collection of device
instances".  `n_nodes` is `len(circ.nodes_dict)` (node 0 is the
reference), `nodes_dict` maps an internal node index to its external
name, and `elements` is the device iteration order. -/
structure Circuit where
  n_nodes : Nat
  nodes_dict : Nat → String
  elements : List Element

/-- `circuit.is_elem_voltage_defined(elem)`.  Modelled from the spec
(`circuit.py` is not part of the analysed source): voltage-defined
elements are independent/dependent voltage sources and inductors, plus
any extension device flagged `is_voltage_defined`. -/
def is_elem_voltage_defined : Element → Bool
  | .vsource _ _ _ _ _ => true
  | .evsource _ _ _ _ _ _ _ => true
  | .hvsource _ _ _ _ _ _ => true
  | .inductor _ _ _ _ _ _ => true
  | .other _ _ _ vd => vd
  | _ => false

/-- Position of a voltage-defined element among the voltage-defined
elements of a list, looked up by identifier (case-insensitive). -/
def find_vde_from (pid : String) : List Element → Option Nat
  | [] => none
  | e :: rest =>
    if is_elem_voltage_defined e then
      if strUpper e.part_id = strUpper pid then some 0
      else (find_vde_from pid rest).map (· + 1)
    else find_vde_from pid rest

/-- `circ.find_vde_index(part_id)`.  Modelled from the spec: "a lookup
from a voltage-defining device's identifier to its assigned
auxiliary-current column index", failing with "not found" otherwise. -/
def Circuit.find_vde_index (circ : Circuit) (pid : String) : Option Nat :=
  find_vde_from pid circ.elements

/-- The state threaded through the assembler's passes: the MNA matrix,
the constant term `N` and the conductance-substitution dictionary
`subs_g`. -/
structure PState where
  mna : Mat
  N : Mat
  subs_g : List (Sym × Expr)

/-- Errors of the assembly: the `circuit.CircuitError` raised for an
unsupported voltage-defined class, and the `ValueError` of a failed
`find_vde_index` lookup. -/
inductive CircuitError where
  | unsupported (msg : String)
  | vde_not_found (part_id : String)
deriving DecidableEq, Repr

/-- Pass 1 of `generate_mna_and_N`: the per-element stamp for every
device that is not voltage-defined (lines 381-460 of `symbolic.py`).
Voltage-defined elements, F-sources and inductor couplings contribute
nothing here; an unrecognized class is skipped (warning only). -/
def step1 (r0s ac : Bool) (st : PState) (elem : Element) : PState :=
  match elem with
  | .resistor part_id n1 n2 is_symbolic value =>
    let GS : Expr × List (Sym × Expr) :=
      if is_symbolic then
        let R := symbol_factory (strUpper part_id) { real := true, positive := true }
        let G := symbol_factory ("G" ++ strDrop part_id 1) { real := true, positive := true }
        (Expr.sym G, dictUpdate st.subs_g G (Expr.div (Expr.num 1) (Expr.sym R)))
      else
        (Expr.num (1 / value), st.subs_g)
    let G := GS.1
    let m := st.mna
    let m := m.set n1 n1 (Expr.add (m.entry n1 n1) G)
    let m := m.set n1 n2 (Expr.sub (m.entry n1 n2) G)
    let m := m.set n2 n1 (Expr.sub (m.entry n2 n1) G)
    let m := m.set n2 n2 (Expr.add (m.entry n2 n2) G)
    { st with mna := m, subs_g := GS.2 }
  | .capacitor part_id n1 n2 is_symbolic value =>
    if ac then
      let capa :=
        if is_symbolic then
          Expr.sym (symbol_factory (strUpper part_id) { real := true, positive := true })
        else Expr.num value
      let m := st.mna
      let m := m.set n1 n1 (Expr.add (m.entry n1 n1) (Expr.mul (Expr.sym sVar) capa))
      let m := m.set n1 n2 (Expr.sub (m.entry n1 n2) (Expr.mul (Expr.sym sVar) capa))
      let m := m.set n2 n2 (Expr.add (m.entry n2 n2) (Expr.mul (Expr.sym sVar) capa))
      let m := m.set n2 n1 (Expr.sub (m.entry n2 n1) (Expr.mul (Expr.sym sVar) capa))
      { st with mna := m }
    else st
  | .inductor _ _ _ _ _ _ => st
  | .gisource part_id n1 n2 sn1 sn2 is_symbolic value =>
    let alpha :=
      if is_symbolic then Expr.sym (symbol_factory (strUpper part_id) { real := true })
      else Expr.num value
    let m := st.mna
    let m := m.set n1 sn1 (Expr.add (m.entry n1 sn1) alpha)
    let m := m.set n1 sn2 (Expr.sub (m.entry n1 sn2) alpha)
    let m := m.set n2 sn1 (Expr.sub (m.entry n2 sn1) alpha)
    let m := m.set n2 sn2 (Expr.add (m.entry n2 sn2) alpha)
    { st with mna := m }
  | .isource part_id n1 n2 is_symbolic dc_value =>
    let IDC :=
      if is_symbolic then Expr.sym (symbol_factory (strUpper part_id) {})
      else Expr.num dc_value
    let v := st.N
    let v := v.set n1 0 (Expr.add (v.entry n1 0) IDC)
    let v := v.set n2 0 (Expr.sub (v.entry n2 0) IDC)
    { st with N := v }
  | .mostrans part_id n1 ng n2 =>
    let gm := Expr.sym (symbol_factory ("gm_" ++ part_id) { real := true, positive := true })
    let m := st.mna
    let m := m.set n1 ng (Expr.add (m.entry n1 ng) gm)
    let m := m.set n1 n2 (Expr.sub (m.entry n1 n2) gm)
    let m := m.set n2 ng (Expr.sub (m.entry n2 ng) gm)
    let m := m.set n2 n2 (Expr.add (m.entry n2 n2) gm)
    if r0s then
      let r0 := Expr.sym (symbol_factory ("r0_" ++ part_id) { real := true, positive := true })
      let m := m.set n1 n1 (Expr.add (m.entry n1 n1) (Expr.div (Expr.num 1) r0))
      let m := m.set n1 n2 (Expr.sub (m.entry n1 n2) (Expr.div (Expr.num 1) r0))
      let m := m.set n2 n1 (Expr.sub (m.entry n2 n1) (Expr.div (Expr.num 1) r0))
      let m := m.set n2 n2 (Expr.add (m.entry n2 n2) (Expr.div (Expr.num 1) r0))
      { st with mna := m }
    else { st with mna := m }
  | .diode part_id n1 n2 =>
    let gd := Expr.sym (symbol_factory ("g" ++ part_id) { positive := true })
    let m := st.mna
    let m := m.set n1 n1 (Expr.add (m.entry n1 n1) gd)
    let m := m.set n1 n2 (Expr.sub (m.entry n1 n2) gd)
    let m := m.set n2 n1 (Expr.sub (m.entry n2 n1) gd)
    let m := m.set n2 n2 (Expr.add (m.entry n2 n2) gd)
    { st with mna := m }
  | .fisource _ _ _ _ _ _ => st
  | .inductor_coupling _ => st
  | .vsource _ _ _ _ _ => st
  | .evsource _ _ _ _ _ _ _ => st
  | .hvsource _ _ _ _ _ _ => st
  | .other _ _ _ _ => st

/-- Pass 1 over the whole circuit, starting from the zero
`n_of_nodes × n_of_nodes` matrix and zero vector. -/
def pass1 (circ : Circuit) (r0s ac : Bool) : PState :=
  circ.elements.foldl (step1 r0s ac)
    ⟨smzeros circ.n_nodes circ.n_nodes, smzeros circ.n_nodes 1, []⟩

/-- Pass 2 of `generate_mna_and_N` for one voltage-defined element
(lines 464-509): grow the matrix by one row and one column and the vector
by one row, write the KCL coupling `+1` and `-1` into the new column at the
element's terminal rows and the KVL row `+1` and `-1` into the new row at its
terminal columns, then the element-specific relation; an unrecognized
voltage-defined class raises `circuit.CircuitError`. -/
def step2 (circ : Circuit) (ac : Bool) (st : PState) (elem : Element) :
    Except CircuitError PState :=
  let index := st.mna.rows
  let m0 := expand_matrix st.mna true true
  let N0 := expand_matrix st.N true false
  let m1 := m0.set elem.n1 index (Expr.num 1)
  let m2 := m1.set elem.n2 index (Expr.num (-1))
  let m3 := m2.set index elem.n1 (Expr.num 1)
  let m4 := m3.set index elem.n2 (Expr.num (-1))
  match elem with
  | .vsource part_id _ _ is_symbolic dc_value =>
    let VDC :=
      if is_symbolic then Expr.sym (symbol_factory (strUpper part_id) {})
      else Expr.num dc_value
    Except.ok ⟨m4, N0.set index 0 (Expr.neg VDC), st.subs_g⟩
  | .evsource part_id _ _ sn1 sn2 is_symbolic a =>
    let alpha :=
      if is_symbolic then Expr.sym (symbol_factory (strUpper part_id) { real := true })
      else Expr.num a
    let m5 := m4.set index sn1 (Expr.neg alpha)
    let m6 := m5.set index sn2 alpha
    Except.ok ⟨m6, N0, st.subs_g⟩
  | .hvsource part_id _ _ source_id is_symbolic a =>
    let alpha :=
      if is_symbolic then Expr.sym (symbol_factory (strUpper part_id) { real := true })
      else Expr.num a
    match circ.find_vde_index source_id with
    | some source_index =>
      Except.ok ⟨m4.set index (circ.n_nodes + source_index) alpha, N0, st.subs_g⟩
    | none => Except.error (CircuitError.vde_not_found source_id)
  | .inductor part_id _ _ is_symbolic Lval _ =>
    if ac then
      let L :=
        if is_symbolic then
          Expr.sym (symbol_factory (strUpper part_id) { real := true, positive := true })
        else Expr.num Lval
      Except.ok ⟨m4.set index index (Expr.mul (Expr.neg (Expr.sym sVar)) L), N0, st.subs_g⟩
    else Except.ok ⟨m4, N0, st.subs_g⟩
  | e =>
    Except.error (CircuitError.unsupported
      ("Element " ++ e.part_id ++ " is not supported. Please report this bug."))

/-- Pass 2 over a device list: only voltage-defined elements are
processed, in iteration order; a raised error aborts the whole
assembly. -/
def pass2 (circ : Circuit) (ac : Bool) : PState → List Element →
    Except CircuitError PState
  | st, [] => Except.ok st
  | st, e :: rest =>
    if is_elem_voltage_defined e then
      match step2 circ ac st e with
      | Except.ok st' => pass2 circ ac st' rest
      | Except.error err => Except.error err
    else pass2 circ ac st rest

/-- The mutual-inductance corrections of pass 3 for one inductor's
coupling devices: each coupling adds `-s*M` at the intersection of the two
inductors' auxiliary-current rows/columns. -/
def couple_steps (circ : Circuit) (pre_vde this_index : Nat) (my_id : String) :
    PState → List Coupling → Except CircuitError PState
  | st, [] => Except.ok st
  | st, cd :: rest =>
    let M :=
      if cd.is_symbolic then
        Expr.sym (symbol_factory cd.part_id { real := true, positive := true })
      else Expr.num cd.K
    match circ.find_vde_index (cd.get_other_inductor my_id) with
    | some other_index =>
      let r := pre_vde + this_index
      let c := pre_vde + other_index
      let m := st.mna.set r c
        (Expr.add (st.mna.entry r c) (Expr.mul (Expr.neg (Expr.sym sVar)) M))
      couple_steps circ pre_vde this_index my_id { st with mna := m } rest
    | none => Except.error (CircuitError.vde_not_found (cd.get_other_inductor my_id))

/-- Pass 3 of `generate_mna_and_N` (lines 511-540): mutual inductances
(only when `ac`) and F-source couplings against auxiliary-current
columns. -/
def pass3 (circ : Circuit) (ac : Bool) (pre_vde : Nat) :
    PState → List Element → Except CircuitError PState
  | st, [] => Except.ok st
  | st, e :: rest =>
    match e with
    | .inductor part_id _ _ _ _ coupling_devices =>
      if ac then
        match circ.find_vde_index part_id with
        | some this_index =>
          match couple_steps circ pre_vde this_index part_id st coupling_devices with
          | Except.ok st' => pass3 circ ac pre_vde st' rest
          | Except.error err => Except.error err
        | none => Except.error (CircuitError.vde_not_found part_id)
      else pass3 circ ac pre_vde st rest
    | .fisource part_id n1 n2 source_id is_symbolic a =>
      match circ.find_vde_index source_id with
      | some source_current_index =>
        let F :=
          if is_symbolic then Expr.sym (symbol_factory part_id { real := true })
          else Expr.num a
        let m := st.mna
        let m := m.set n1 (pre_vde + source_current_index)
          (Expr.add (m.entry n1 (pre_vde + source_current_index)) F)
        let m := m.set n2 (pre_vde + source_current_index)
          (Expr.sub (m.entry n2 (pre_vde + source_current_index)) F)
        pass3 circ ac pre_vde { st with mna := m } rest
      | none => Except.error (CircuitError.vde_not_found source_id)
    | _ => pass3 circ ac pre_vde st rest

/-- `generate_mna_and_N(circ, opts, ac)`: the three passes in sequence;
`pre_vde` is the matrix size recorded between pass 1 and pass 2. -/
def generate_mna_and_N (circ : Circuit) (r0s ac : Bool) :
    Except CircuitError (Mat × Mat × List (Sym × Expr)) :=
  let st1 := pass1 circ r0s ac
  let pre_vde := st1.mna.rows
  match pass2 circ ac st1 circ.elements with
  | Except.error err => Except.error err
  | Except.ok st2 =>
    match pass3 circ ac pre_vde st2 circ.elements with
    | Except.error err => Except.error err
    | Except.ok st3 => Except.ok (st3.mna, st3.N, st3.subs_g)

/-- `get_variables(circ)`: the column vector of unknowns — node-voltage
symbols `V<node name>` for the non-reference nodes, then branch-current
symbols `I[<PART_ID>]` for the voltage-defined elements in iteration
order. -/
def get_variables (circ : Circuit) : Mat :=
  let nv_1 := circ.n_nodes - 1
  let idescr :=
    (circ.elements.filter (fun e => is_elem_voltage_defined e)).map
      (fun e => strUpper e.part_id)
  let mna_size := nv_1 + idescr.length
  (List.range mna_size).foldl
    (fun x i =>
      if i < nv_1 then
        x.set i 0 (Expr.sym (symbol_factory ("V" ++ circ.nodes_dict (i + 1)) {}))
      else
        x.set i 0 (Expr.sym (symbol_factory ("I[" ++ idescr.getD (i - nv_1) "" ++ "]") {})))
    (smzeros mna_size 1)

/-- `apply_substitutions(mna, N, subs)`: entrywise `subs()` on both
matrices. -/
def apply_substitutions (mna N : Mat) (subs : List (Sym × Expr)) : Mat × Mat :=
  (mna.subsAll subs, N.subsAll subs)

/-- The derivative `value.diff(xin)` (models the external engine's
differentiation on the embedded expression fragment). -/
def diffE (e : Expr) (x : Sym) : Expr :=
  match e with
  | .num _ => .num 0
  | .sym y => if y == x then .num 1 else .num 0
  | .add a b => .add (diffE a x) (diffE b x)
  | .sub a b => .sub (diffE a x) (diffE b x)
  | .mul a b => .add (.mul (diffE a x) b) (.mul a (diffE b x))
  | .neg a => .neg (diffE a x)
  | .div a b => .div (.sub (.mul (diffE a x) b) (.mul a (diffE b x))) (.mul b b)

/-- Numerator/denominator normal form used by `together`: combine an
expression over a common denominator. -/
def ratio : Expr → Expr × Expr
  | .num q => (.num q, .num 1)
  | .sym y => (.sym y, .num 1)
  | .neg a => ((ratio a).map Expr.neg id : Expr × Expr)
  | .add a b =>
    let ra := ratio a
    let rb := ratio b
    (.add (.mul ra.1 rb.2) (.mul rb.1 ra.2), .mul ra.2 rb.2)
  | .sub a b =>
    let ra := ratio a
    let rb := ratio b
    (.sub (.mul ra.1 rb.2) (.mul rb.1 ra.2), .mul ra.2 rb.2)
  | .mul a b => (.mul (ratio a).1 (ratio b).1, .mul (ratio a).2 (ratio b).2)
  | .div a b => (.mul (ratio a).1 (ratio b).2, .mul (ratio a).2 (ratio b).1)

/-- `sympy.together(expr)`: combine over a common denominator (model of
the external engine's rational simplification). -/
def together (e : Expr) : Expr :=
  let r := ratio e
  Expr.div r.1 r.2

/-- `sympy.fraction(expr)`: split a quotient into (numerator,
denominator); a non-quotient has denominator 1. -/
def fractionE : Expr → Expr × Expr
  | .div a b => (a, b)
  | e => (e, .num 1)

/-- `get_roots(expr)`: hand denominator and numerator to the external
engine's polynomial solver in `s`; returns `(poles, zeros)`.  The solver
itself (`sympy.solve`) is an external collaborator, taken as the function
parameter `solve`. -/
def get_roots (solve : Expr → Sym → List Expr) (expr : Expr) :
    List Expr × List Expr :=
  let nd := fractionE expr
  (solve nd.2 sVar, solve nd.1 sVar)

/-- A transfer-function record: `{'gain':…, 'gain0':…, 'poles':…,
'zeros':…}`. -/
structure TF where
  gain : Expr
  gain0 : Expr
  poles : List Expr
  zeros : List Expr
deriving DecidableEq, Repr

/-- `calculate_gains(sol, xin, optimize)`: for every solved unknown,
differentiate with respect to `xin` (`together` applied when `optimize`),
evaluate at `s = 0`, extract poles and zeros, and key the record by
`"<unknown>/<input>"`. -/
def calculate_gains (solve : Expr → Sym → List Expr)
    (sol : List (Sym × Expr)) (xin : Sym) (optimize : Bool := true) :
    List (String × TF) :=
  sol.foldl
    (fun gains kv =>
      let gain := if optimize then together (diffE kv.2 xin) else diffE kv.2 xin
      let pz := get_roots solve gain
      dictUpdate gains (kv.1.name ++ "/" ++ xin.name)
        { gain := gain
          gain0 := replaceSym sVar (Expr.num 0) gain
          poles := pz.1
          zeros := pz.2 })
    []

/-- The leading-letter remap of `parse_substitutions`: upper-case, with
`R` mapped to `G` (the internal conductance convention). -/
def remapChar (c : Char) : Char :=
  if c.toUpper ≠ 'R' then c.toUpper else 'G'

/-- Build the symbol for one side of an `'A=B'` entry: remap the leading
letter, then request `real, positive` when the remapped letter is one of
`R,G,L,C,M`, else only `real`.  `none` mirrors the `IndexError` on an
empty side. -/
def sub_side_symbol (v : String) : Option Sym :=
  match v.data with
  | [] => none
  | c :: rest =>
    let letter_id := remapChar c
    if letter_id ∈ ['R', 'G', 'L', 'C', 'M'] then
      some (symbol_factory (String.mk (letter_id :: rest)) { real := true, positive := true })
    else
      some (symbol_factory (String.mk (letter_id :: rest)) { real := true })

/-- Worker for `parse_substitutions`, accumulating the substitution
dictionary. -/
def parse_substitutions_go : List (Sym × Sym) → List String →
    Except CircuitError (List (Sym × Sym))
  | subs, [] => Except.ok subs
  | subs, l :: rest =>
    match splitOnChar '=' l.data with
    | [d1, d2] =>
      match sub_side_symbol (String.mk d1), sub_side_symbol (String.mk d2) with
      | some s1, some s2 => parse_substitutions_go (dictUpdate subs s1 s2) rest
      | _, _ => Except.error (CircuitError.unsupported "malformed substitution")
    | _ => Except.error (CircuitError.unsupported "malformed substitution")

/-- `parse_substitutions(slist)`: turn `'<id1>=<id2>'` strings into a
symbol-to-symbol substitution dictionary. -/
def parse_substitutions (slist : List String) :
    Except CircuitError (List (Sym × Sym)) :=
  parse_substitutions_go [] slist

/-- What `symbolic_analysis` hands back (inside the result objects of the
excluded presentation layer): the back-substituted solution mapping, the
transfer functions when a source was requested, and whether the
"No solutions" warning fired. -/
structure AnalysisOutcome where
  sol : List (Sym × Expr)
  tfs : Option (List (String × TF))
  no_solutions_warning : Bool

/-- `symbolic_analysis(circ, source, ac_enable, r0s, subs)`: assemble the
MNA system, reduce out the reference node, apply user substitutions,
solve (the external engine's `sympy.solve` is the parameter
`solve_system`, its root finder the parameter `root_solver`), rewrite the
solution with the conductance map, warn when the solution is empty, and
derive transfer functions when a source is given. -/
def symbolic_analysis (circ : Circuit) (source : Option String)
    (ac_enable r0s : Bool) (subs : List (Sym × Expr))
    (solve_system : List Expr → List Expr → List (Sym × Expr))
    (root_solver : Expr → Sym → List Expr) :
    Except CircuitError AnalysisOutcome :=
  match generate_mna_and_N circ r0s ac_enable with
  | Except.error err => Except.error err
  | Except.ok mnaN =>
    let x := get_variables circ
    let mna := mnaN.1.dropFirstRowCol
    let N := mnaN.2.1.dropFirstRow
    let mnaN' := apply_substitutions mna N subs
    let eq := to_real_list ((mnaN'.1.matMul x).matAdd mnaN'.2)
    let xl := to_real_list x
    let sol := solve_system eq xl
    let sol := sol.map (fun kv => (kv.1, subst mnaN.2.2 kv.2))
    let warned := sol.isEmpty
    let tfs :=
      match source with
      | some src => some (calculate_gains root_solver sol (symbol_factory (strUpper src) {}) true)
      | none => none
    Except.ok ⟨sol, tfs, warned⟩

/-! Helper definitions used to state the claims. -/

/-- Constructor test for `Except.ok`. -/
def isOkE {ε α : Type} : Except ε α → Bool
  | Except.ok _ => true
  | Except.error _ => false

/-- Decidable equality of `Except` results (componentwise). -/
instance exceptDecEq {ε α : Type} [DecidableEq ε] [DecidableEq α] :
    DecidableEq (Except ε α) := fun x y =>
  match x, y with
  | Except.ok a, Except.ok b =>
    if h : a = b then isTrue (h ▸ rfl) else isFalse (fun hc => h (Except.ok.inj hc))
  | Except.ok _, Except.error _ => isFalse (fun hc => Except.noConfusion hc)
  | Except.error _, Except.ok _ => isFalse (fun hc => Except.noConfusion hc)
  | Except.error e, Except.error f =>
    if h : e = f then isTrue (h ▸ rfl) else isFalse (fun hc => h (Except.error.inj hc))

/-- The voltage-defined classes pass 2 recognizes (independent voltage
source, VCVS, CCVS, inductor). -/
def vde_supported : Element → Bool
  | .vsource _ _ _ _ _ => true
  | .evsource _ _ _ _ _ _ _ => true
  | .hvsource _ _ _ _ _ _ => true
  | .inductor _ _ _ _ _ _ => true
  | _ => false

/-- Wellformedness of one element for pass 2 relative to a circuit:
voltage-defined elements have two distinct terminal nodes below the node
count, a CCVS's controlled source resolves, and no unsupported
voltage-defined class occurs. -/
def pass2_elem_ok (circ : Circuit) (e : Element) : Bool :=
  match e with
  | .vsource _ n1 n2 _ _ =>
    decide (n1 < circ.n_nodes) && decide (n2 < circ.n_nodes) && decide (n1 ≠ n2)
  | .evsource _ n1 n2 _ _ _ _ =>
    decide (n1 < circ.n_nodes) && decide (n2 < circ.n_nodes) && decide (n1 ≠ n2)
  | .hvsource _ n1 n2 source_id _ _ =>
    decide (n1 < circ.n_nodes) && decide (n2 < circ.n_nodes) && decide (n1 ≠ n2) &&
      (circ.find_vde_index source_id).isSome
  | .inductor _ n1 n2 _ _ _ =>
    decide (n1 < circ.n_nodes) && decide (n2 < circ.n_nodes) && decide (n1 ≠ n2)
  | .other _ _ _ vd => !vd
  | _ => true

/-- The voltage-defined elements of a list, in iteration order. -/
def vdeList (l : List Element) : List Element :=
  l.filter (fun e => is_elem_voltage_defined e)

/-- Number of voltage-defined elements. -/
def countVde (l : List Element) : Nat := (vdeList l).length

/-- The `k`-th voltage-defined element (junk default out of range). -/
def vdeAt (l : List Element) (k : Nat) : Element :=
  (vdeList l).getD k (Element.other "" 0 0 false)

/-- Is the element a resistor with a symbolic value? -/
def is_symbolic_resistor : Element → Bool
  | .resistor _ _ _ true _ => true
  | _ => false

/-- The symbolic resistors of a list, in iteration order. -/
def symbolic_resistors (l : List Element) : List Element :=
  l.filter (fun e => is_symbolic_resistor e)

/-- The internal conductance symbol pass 1 introduces for a (symbolic)
resistor. -/
def resistor_G (e : Element) : Sym :=
  symbol_factory ("G" ++ strDrop e.part_id 1) { real := true, positive := true }

/-- The resistance symbol pass 1 introduces for a (symbolic) resistor. -/
def resistor_R (e : Element) : Sym :=
  symbol_factory (strUpper e.part_id) { real := true, positive := true }

/-- The conductance symbols of all symbolic resistors of a circuit. -/
def Glist (circ : Circuit) : List Sym :=
  (symbolic_resistors circ.elements).map resistor_G

/-- The auxiliary-map entry recorded for one symbolic resistor:
`G ↦ 1/R`. -/
def resistor_subs_entry (e : Element) : Sym × Expr :=
  (resistor_G e, Expr.div (Expr.num 1) (Expr.sym (resistor_R e)))

/-- Per-element hypotheses under which the pass-2 stamp description of
the specification applies verbatim: a supported voltage-defined class,
distinct terminals below the node count, a resolvable controlled source
for a CCVS, and (for a VCVS) controlling nodes below the node count and
disjoint from the terminals. -/
def C1hyps (circ : Circuit) (e : Element) : Prop :=
  e.n1 < circ.n_nodes ∧ e.n2 < circ.n_nodes ∧ e.n1 ≠ e.n2 ∧
  vde_supported e = true ∧
  (match e with
   | .hvsource _ _ _ source_id _ _ => (circ.find_vde_index source_id).isSome = true
   | .evsource _ n1 n2 sn1 sn2 _ _ =>
     sn1 < circ.n_nodes ∧ sn2 < circ.n_nodes ∧ sn1 ≠ sn2 ∧
     sn1 ≠ n1 ∧ sn1 ≠ n2 ∧ sn2 ≠ n1 ∧ sn2 ≠ n2
   | _ => True)

/-- The element-specific relation pass 2 stamps into the new row `idx`
(resp. the new vector entry), as the specification states it. -/
def C1specific (circ : Circuit) (ac : Bool) (e : Element) (idx : Nat)
    (st' : PState) : Prop :=
  match e with
  | .vsource part_id _ _ is_symbolic dc_value =>
    st'.N.entry idx 0 =
      Expr.neg (if is_symbolic then Expr.sym (symbol_factory (strUpper part_id) {})
                else Expr.num dc_value)
  | .evsource part_id _ _ sn1 sn2 is_symbolic a =>
    st'.mna.entry idx sn1 =
      Expr.neg (if is_symbolic then Expr.sym (symbol_factory (strUpper part_id) { real := true })
                else Expr.num a) ∧
    st'.mna.entry idx sn2 =
      (if is_symbolic then Expr.sym (symbol_factory (strUpper part_id) { real := true })
       else Expr.num a)
  | .hvsource part_id _ _ source_id is_symbolic a =>
    ∀ k, circ.find_vde_index source_id = some k →
      st'.mna.entry idx (circ.n_nodes + k) =
        (if is_symbolic then Expr.sym (symbol_factory (strUpper part_id) { real := true })
         else Expr.num a)
  | .inductor part_id _ _ is_symbolic Lval _ =>
    ac = true →
      st'.mna.entry idx idx =
        Expr.mul (Expr.neg (Expr.sym sVar))
          (if is_symbolic then
             Expr.sym (symbol_factory (strUpper part_id) { real := true, positive := true })
           else Expr.num Lval)
  | _ => True

/-! Concrete inputs used by the witnesses. -/

/-- Concrete symbol `A` (no assumptions), for the substitution
examples. -/
def symA : Sym := ⟨"A", false, false, false⟩

/-- Concrete symbol `B`. -/
def symB : Sym := ⟨"B", false, false, false⟩

/-- Concrete symbol `C`. -/
def symC : Sym := ⟨"C", false, false, false⟩

/-- A 1×1 matrix holding the single symbol `A`. -/
def matA : Mat := ⟨1, 1, fun _ _ => Expr.sym symA⟩

/-- A concrete two-node circuit: voltage source `V1` from node 1 to
ground feeding resistor `R1` to ground, with a symbolic inductor `L1`
carrying no coupling. -/
def circVRL : Circuit :=
  { n_nodes := 3
    nodes_dict := fun _ => "node"
    elements :=
      [ Element.vsource "V1" 1 0 true 5
      , Element.resistor "R1" 1 2 true 0
      , Element.inductor "L1" 2 0 true 0 [] ] }

/-- A circuit whose only element is an extension device flagged
voltage-defined: pass 2 must abort on it. -/
def circBadVde : Circuit :=
  { n_nodes := 2
    nodes_dict := fun _ => "node"
    elements := [Element.other "X1" 1 0 true] }

/-- The empty circuit (reference node only). -/
def circEmpty : Circuit :=
  { n_nodes := 1
    nodes_dict := fun _ => "node"
    elements := [] }

/-- A solver stub that reports no solution (external engine returning
the empty mapping). -/
def emptySolver : List Expr → List Expr → List (Sym × Expr) := fun _ _ => []

/-- A root-solver stub returning no roots. -/
def emptyRoots : Expr → Sym → List Expr := fun _ _ => []

/-! Basic lemmas about the matrix model. -/

theorem Mat.set_rows (m : Mat) (r c : Nat) (v : Expr) : (m.set r c v).rows = m.rows := rfl

theorem Mat.set_cols (m : Mat) (r c : Nat) (v : Expr) : (m.set r c v).cols = m.cols := rfl

theorem Mat.entry_set (m : Mat) (r c : Nat) (v : Expr) (i j : Nat) :
    (m.set r c v).entry i j =
      if i = r then (if j = c then v else m.entry i j) else m.entry i j := rfl

/-! Claim C10. -/

/-- C10: every call of the module's symbol factory discards requested
`real` and `positive` assumption flags, because the fixed
`enabled_assumptions` allow-list enables only `complex`; hence no symbol
the module creates carries a real or positive assumption. -/
theorem C10_factory_discards_assumptions (name : String) (options : SymOpts) :
    (symbol_factory name options).real = false ∧
    (symbol_factory name options).positive = false ∧
    enabled_assumptions = ⟨false, false, true⟩ := by
  refine ⟨?_, ?_, rfl⟩ <;> simp [symbol_factory, enabled_assumptions]

/-! Claim C8. -/

/-- C8: with frequency dependence disabled (`ac = false`), processing a
capacitor in pass 1 leaves the assembler state — MNA matrix, constant
vector and auxiliary map — completely unchanged. -/
theorem C8_capacitor_dc_open (r0s : Bool) (st : PState) (part_id : String)
    (n1 n2 : Nat) (sy : Bool) (value : ℚ) :
    step1 r0s false st (Element.capacitor part_id n1 n2 sy value) = st := rfl

/-! Claim C5: the substitution engine. -/

/-- C5 counterexample: on the mapping `{A ↦ B, B ↦ C}` the substitution
performed by `apply_substitutions` rewrites an entry `A` to `C`, not to
`B` as the claim states: sympy sorts an unordered mapping canonically and
applies the pairs sequentially, so the replacement `B` is itself
re-substituted by the later pair. -/
theorem C5_counterexample :
    (apply_substitutions matA (smzeros 1 1)
        [(symA, Expr.sym symB), (symB, Expr.sym symC)]).1.entry 0 0 = Expr.sym symC ∧
    Expr.sym symC ≠ Expr.sym symB := by
  exact ⟨rfl, by decide⟩

/-- C5 amended: `apply_substitutions` substitutes sequentially in sympy's
canonical (name-sorted) key order, each pair applied exactly one time with
no fixed-point iteration — a single pair `x ↦ v` is applied as one sweep
even if `v` mentions `x` — but a replacement value IS rewritten by pairs
applied later in the canonical order: with `{a ↦ b, b ↦ v}` and
`a` sorting before `b`, an occurrence of `a` becomes `v`. -/
theorem C5_amended_sequential_substitution :
    (∀ (m N : Mat) (x : Sym) (v : Expr) (i j : Nat),
      (apply_substitutions m N [(x, v)]).1.entry i j = replaceSym x v (m.entry i j)) ∧
    (∀ (a b : Sym) (v : Expr) (m N : Mat) (i j : Nat),
      compare a.name b.name = Ordering.lt →
      m.entry i j = Expr.sym a →
      (apply_substitutions m N [(a, Expr.sym b), (b, v)]).1.entry i j = v) := by
  constructor
  · intro m N x v i j
    rfl
  · intro a b v m N i j hlt hme
    have he : (apply_substitutions m N [(a, Expr.sym b), (b, v)]).1.entry i j
        = subst [(a, Expr.sym b), (b, v)] (m.entry i j) := rfl
    rw [he, hme]
    have hs : sortSubs [(a, Expr.sym b), (b, v)] = [(a, Expr.sym b), (b, v)] := by
      simp only [sortSubs, insertSub, hlt]
      rfl
    rw [subst, hs]
    simp [replaceSym]

/-- Witness for the amended C5 theorem at a concrete input. -/
theorem C5_amended_sequential_substitution_witness :
    (apply_substitutions matA (smzeros 1 1)
        [(symA, Expr.sym symB), (symB, Expr.sym symC)]).1.entry 0 0 = Expr.sym symC :=
  C5_amended_sequential_substitution.2 symA symB (Expr.sym symC) matA (smzeros 1 1) 0 0
    (by decide) rfl

/-! Claim C9: the substitution parser. -/

/-- C9 counterexample: for the well-formed entry `"R1=R2"`, the parsed
symbols have their leading `R` remapped to `G`, but carry NEITHER the
real nor the positive assumption — `_symbol_factory` discards both flags
through the `enabled_assumptions` allow-list — contradicting the claim
that the resulting symbols carry `real` and `positive`. -/
theorem C9_counterexample :
    parse_substitutions ["R1=R2"] =
      Except.ok [(⟨"G1", false, false, false⟩, ⟨"G2", false, false, false⟩)] ∧
    ((⟨"G1", false, false, false⟩ : Sym).real = false ∧
      (⟨"G1", false, false, false⟩ : Sym).positive = false) := by
  exact ⟨by decide, rfl, rfl⟩

/-- C9 amended: for a well-formed `'A=B'` entry, each side's leading
letter is uppercased with `R` remapped to `G` before symbol construction,
and the parser REQUESTS the `real, positive` assumptions when the
remapped leading letter lies in `{R,G,L,C,M}` (only `real` otherwise) —
but the symbol factory discards the requested flags (only `complex` is
enabled), so the symbols ultimately constructed carry neither assumption,
and their names are the fully uppercased remapped identifiers. -/
theorem C9_amended_parse (l : String) (c1 : Char) (r1 : List Char)
    (c2 : Char) (r2 : List Char)
    (hsplit : splitOnChar '=' l.data = [c1 :: r1, c2 :: r2]) :
    parse_substitutions [l] = Except.ok
      [( symbol_factory (String.mk (remapChar c1 :: r1))
           { real := true, positive := decide (remapChar c1 ∈ ['R', 'G', 'L', 'C', 'M'])
             complex := false }
       , symbol_factory (String.mk (remapChar c2 :: r2))
           { real := true, positive := decide (remapChar c2 ∈ ['R', 'G', 'L', 'C', 'M'])
             complex := false } )] ∧
    (∀ (nm : String) (o : SymOpts),
      (symbol_factory nm o).real = false ∧ (symbol_factory nm o).positive = false ∧
        (symbol_factory nm o).name = strUpper nm) := by
  constructor
  · simp only [parse_substitutions, parse_substitutions_go, hsplit]
    simp only [sub_side_symbol]
    by_cases hm1 : remapChar c1 ∈ ['R', 'G', 'L', 'C', 'M'] <;>
      by_cases hm2 : remapChar c2 ∈ ['R', 'G', 'L', 'C', 'M'] <;>
        simp [hm1, hm2, dictUpdate, parse_substitutions_go, symbol_factory,
          enabled_assumptions]
  · intro nm o
    refine ⟨?_, ?_, rfl⟩ <;> simp [symbol_factory, enabled_assumptions]

/-- Witness for the amended C9 theorem at the concrete entry
`"R1=Vy"`. -/
theorem C9_amended_parse_witness :
    splitOnChar '=' ("R1=Vy" : String).data = ['R' :: ['1'], 'V' :: ['y']] ∧
    (parse_substitutions ["R1=Vy"] = Except.ok
      [( symbol_factory (String.mk (remapChar 'R' :: ['1']))
           { real := true, positive := decide (remapChar 'R' ∈ ['R', 'G', 'L', 'C', 'M'])
             complex := false }
       , symbol_factory (String.mk (remapChar 'V' :: ['y']))
           { real := true, positive := decide (remapChar 'V' ∈ ['R', 'G', 'L', 'C', 'M'])
             complex := false } )] ∧
    (∀ (nm : String) (o : SymOpts),
      (symbol_factory nm o).real = false ∧ (symbol_factory nm o).positive = false ∧
        (symbol_factory nm o).name = strUpper nm)) :=
  ⟨by decide, C9_amended_parse "R1=Vy" 'R' ['1'] 'V' ['y'] (by decide)⟩

/-! Claim C6: unsupported voltage-defined classes abort pass 2. -/

/-- A voltage-defined element of unrecognized class makes `step2` raise
the unsupported-element `CircuitError`. -/
theorem step2_unsupported_error (circ : Circuit) (ac : Bool) (st : PState)
    (e : Element) (hvde : is_elem_voltage_defined e = true)
    (hun : vde_supported e = false) :
    ∃ msg, step2 circ ac st e = Except.error (CircuitError.unsupported msg) := by
  cases e <;> simp_all [is_elem_voltage_defined, vde_supported]
  exact ⟨_, rfl⟩

/-- If a list contains a voltage-defined element of unrecognized class,
pass 2 over the list fails. -/
theorem pass2_error_of_unsupported (circ : Circuit) (ac : Bool) :
    ∀ (l : List Element) (st : PState) (e : Element), e ∈ l →
      is_elem_voltage_defined e = true → vde_supported e = false →
      ∃ err, pass2 circ ac st l = Except.error err := by
  intro l
  induction l with
  | nil => intro st e hmem; exact absurd hmem (List.not_mem_nil e)
  | cons a rest ih =>
    intro st e hmem hvde hun
    rcases List.mem_cons.mp hmem with rfl | hmem'
    · obtain ⟨msg, hmsg⟩ := step2_unsupported_error circ ac st e hvde hun
      refine ⟨CircuitError.unsupported msg, ?_⟩
      simp [pass2, hvde, hmsg]
    · by_cases hv : is_elem_voltage_defined a = true
      · cases hstep : step2 circ ac st a with
        | ok st' =>
          obtain ⟨err, herr⟩ := ih st' e hmem' hvde hun
          exact ⟨err, by simp [pass2, hv, hstep, herr]⟩
        | error err => exact ⟨err, by simp [pass2, hv, hstep]⟩
      · obtain ⟨err, herr⟩ := ih st e hmem' hvde hun
        exact ⟨err, by simp [pass2, hv, herr]⟩

/-- C6: if the circuit contains a voltage-defined element whose class is
none of independent voltage source, VCVS, CCVS, inductor, then assembly
aborts with a raised error (never a warning), and the offending element
itself always raises the unsupported-element configuration error in
pass 2. -/
theorem C6_unsupported_vde_aborts (circ : Circuit) (r0s ac : Bool) (e : Element)
    (hmem : e ∈ circ.elements) (hvde : is_elem_voltage_defined e = true)
    (hun : vde_supported e = false) :
    (∃ err, generate_mna_and_N circ r0s ac = Except.error err) ∧
    (∀ st : PState, ∃ msg,
      step2 circ ac st e = Except.error (CircuitError.unsupported msg)) := by
  constructor
  · obtain ⟨err, herr⟩ :=
      pass2_error_of_unsupported circ ac circ.elements (pass1 circ r0s ac) e
        hmem hvde hun
    exact ⟨err, by simp [generate_mna_and_N, herr]⟩
  · intro st
    exact step2_unsupported_error circ ac st e hvde hun

/-- Witness for C6: a circuit with an extension device flagged
voltage-defined. -/
theorem C6_unsupported_vde_aborts_witness :
    ((Element.other "X1" 1 0 true ∈ circBadVde.elements ∧
      is_elem_voltage_defined (Element.other "X1" 1 0 true) = true ∧
      vde_supported (Element.other "X1" 1 0 true) = false)) ∧
    ((∃ err, generate_mna_and_N circBadVde false true = Except.error err) ∧
     (∀ st : PState, ∃ msg,
        step2 circBadVde true st (Element.other "X1" 1 0 true) =
          Except.error (CircuitError.unsupported msg))) :=
  ⟨⟨by simp [circBadVde], rfl, rfl⟩,
    C6_unsupported_vde_aborts circBadVde false true (Element.other "X1" 1 0 true)
      (by simp [circBadVde]) rfl rfl⟩

/-! Claim C7: an empty solver result is surfaced, not raised. -/

/-- C7: when the external symbolic solver returns no solution,
`symbolic_analysis` still returns normally, with an empty solution
mapping and the "No solutions" warning emitted. -/
theorem C7_empty_solution_returns (circ : Circuit) (source : Option String)
    (ac r0s : Bool) (subs : List (Sym × Expr))
    (solve_system : List Expr → List Expr → List (Sym × Expr))
    (root_solver : Expr → Sym → List Expr)
    (hgen : isOkE (generate_mna_and_N circ r0s ac) = true)
    (hsol : ∀ e x, solve_system e x = []) :
    ∃ res, symbolic_analysis circ source ac r0s subs solve_system root_solver =
        Except.ok res ∧ res.sol = [] ∧ res.no_solutions_warning = true := by
  cases hg : generate_mna_and_N circ r0s ac with
  | error err => rw [hg] at hgen; exact absurd hgen (by simp [isOkE])
  | ok t =>
    cases source with
    | none =>
      refine ⟨⟨[], none, true⟩, ?_, rfl, rfl⟩
      simp [symbolic_analysis, hg, hsol]
    | some src =>
      refine ⟨⟨[], some [], true⟩, ?_, rfl, rfl⟩
      simp [symbolic_analysis, hg, hsol, calculate_gains]

/-- Witness for C7 on the empty circuit with an empty-returning
solver. -/
theorem C7_empty_solution_returns_witness :
    (isOkE (generate_mna_and_N circEmpty false false) = true ∧
      ∀ e x, emptySolver e x = []) ∧
    (∃ res, symbolic_analysis circEmpty (some "V1") false false [] emptySolver
        emptyRoots = Except.ok res ∧ res.sol = [] ∧
        res.no_solutions_warning = true) :=
  ⟨⟨rfl, fun _ _ => rfl⟩,
    C7_empty_solution_returns circEmpty (some "V1") false false [] emptySolver
      emptyRoots rfl (fun _ _ => rfl)⟩

/-! Claim C4: the transfer-function deriver. -/

/-- `dict.update` appends when the key is fresh. -/
theorem dictUpdate_fresh {α β : Type} [DecidableEq α] (d : List (α × β)) (k : α)
    (v : β) (h : ∀ p ∈ d, p.1 ≠ k) : dictUpdate d k v = d ++ [(k, v)] := by
  have hany : d.any (fun p => p.1 == k) = false := by
    rw [List.any_eq_false]
    intro p hp
    simpa using h p hp
  simp [dictUpdate, hany]

/-- A fold of fresh `dict.update`s over an accumulator is the
accumulator extended by the mapped entries. -/
theorem foldl_dictUpdate_map {α : Type} (key : α → String) (val : α → TF) :
    ∀ (l : List α) (acc : List (String × TF)),
      (l.map key).Nodup →
      (∀ k ∈ l.map key, ∀ p ∈ acc, p.1 ≠ k) →
      l.foldl (fun gains kv => dictUpdate gains (key kv) (val kv)) acc
        = acc ++ l.map (fun kv => (key kv, val kv)) := by
  intro l
  induction l with
  | nil => intro acc _ _; simp
  | cons a rest ih =>
    intro acc hnd hdisj
    rw [List.map_cons, List.nodup_cons] at hnd
    obtain ⟨hnotin, hnd'⟩ := hnd
    have hfresh : ∀ p ∈ acc, p.1 ≠ key a := by
      intro p hp
      exact hdisj (key a) (by simp) p hp
    have hstep : dictUpdate acc (key a) (val a) = acc ++ [(key a, val a)] :=
      dictUpdate_fresh acc (key a) (val a) hfresh
    have hdisj' : ∀ k ∈ rest.map key, ∀ p ∈ acc ++ [(key a, val a)], p.1 ≠ k := by
      intro k hk p hp
      rcases List.mem_append.mp hp with hpacc | hpa
      · exact hdisj k (by simp only [List.map_cons]; exact List.mem_cons_of_mem _ hk)
          p hpacc
      · have hpe : p = (key a, val a) := by simpa using hpa
        subst hpe
        intro hcontra
        apply hnotin
        have hka : key a = k := hcontra
        rw [hka]
        exact hk
    have hrest := ih (acc ++ [(key a, val a)]) hnd' hdisj'
    calc (a :: rest).foldl (fun gains kv => dictUpdate gains (key kv) (val kv)) acc
        = rest.foldl (fun gains kv => dictUpdate gains (key kv) (val kv))
            (dictUpdate acc (key a) (val a)) := by rw [List.foldl_cons]
      _ = rest.foldl (fun gains kv => dictUpdate gains (key kv) (val kv))
            (acc ++ [(key a, val a)]) := by rw [hstep]
      _ = acc ++ [(key a, val a)] ++ rest.map (fun kv => (key kv, val kv)) := hrest
      _ = acc ++ (a :: rest).map (fun kv => (key kv, val kv)) := by
            simp [List.append_assoc]

/-- C4: `calculate_gains` returns, for every solved unknown, a record
keyed `"<unknown-name>/<input-symbol-name>"` whose `gain` is the
derivative of the solved expression with respect to `xin` (combined over
a common denominator when `optimize`), whose `gain0` is that gain with
the frequency variable set to zero, and whose poles and zeros are the
roots in `s` of the gain's denominator and numerator respectively. -/
theorem C4_calculate_gains (solve : Expr → Sym → List Expr)
    (sol : List (Sym × Expr)) (xin : Sym) (optimize : Bool)
    (hnd : (sol.map (fun kv => kv.1.name ++ "/" ++ xin.name)).Nodup) :
    calculate_gains solve sol xin optimize =
      sol.map (fun kv =>
        (kv.1.name ++ "/" ++ xin.name,
          let gain := if optimize then together (diffE kv.2 xin) else diffE kv.2 xin
          ({ gain := gain
             gain0 := replaceSym sVar (Expr.num 0) gain
             poles := solve (fractionE gain).2 sVar
             zeros := solve (fractionE gain).1 sVar } : TF))) := by
  have h := foldl_dictUpdate_map
    (fun kv : Sym × Expr => kv.1.name ++ "/" ++ xin.name)
    (fun kv : Sym × Expr =>
      let gain := if optimize then together (diffE kv.2 xin) else diffE kv.2 xin
      ({ gain := gain
         gain0 := replaceSym sVar (Expr.num 0) gain
         poles := solve (fractionE gain).2 sVar
         zeros := solve (fractionE gain).1 sVar } : TF))
    sol [] hnd (by simp)
  rw [List.nil_append] at h
  exact h

/-- Witness for C4 on a one-entry solution. -/
theorem C4_calculate_gains_witness :
    ([(symA, Expr.mul (Expr.sym symB) (Expr.sym symA))].map
        (fun kv : Sym × Expr => kv.1.name ++ "/" ++ symB.name)).Nodup ∧
    calculate_gains emptyRoots [(symA, Expr.mul (Expr.sym symB) (Expr.sym symA))]
        symB true =
      [(symA, Expr.mul (Expr.sym symB) (Expr.sym symA))].map (fun kv =>
        (kv.1.name ++ "/" ++ symB.name,
          let gain := if true then together (diffE kv.2 symB) else diffE kv.2 symB
          ({ gain := gain
             gain0 := replaceSym sVar (Expr.num 0) gain
             poles := emptyRoots (fractionE gain).2 sVar
             zeros := emptyRoots (fractionE gain).1 sVar } : TF))) :=
  ⟨by decide,
    C4_calculate_gains emptyRoots [(symA, Expr.mul (Expr.sym symB) (Expr.sym symA))]
      symB true (by decide)⟩

/-! Claim C3: symbolic resistors and the conductance map. -/

/-- Every pass-1 stamp other than a symbolic resistor's leaves the
auxiliary map untouched. -/
theorem step1_subs_g_const (r0s ac : Bool) (st : PState) (e : Element)
    (h : is_symbolic_resistor e = false) :
    (step1 r0s ac st e).subs_g = st.subs_g := by
  cases e
  case resistor pid n1 n2 sy v =>
    cases sy
    case false => rfl
    case true => simp [is_symbolic_resistor] at h
  case capacitor pid n1 n2 sy v =>
    simp only [step1]
    split
    · rfl
    · rfl
  case mostrans pid n1 ng n2 =>
    simp only [step1]
    split
    · rfl
    · rfl
  all_goals rfl

/-- A symbolic resistor records exactly the one entry `G ↦ 1/R` in the
auxiliary map. -/
theorem step1_subs_g_symres (r0s ac : Bool) (st : PState) (pid : String)
    (n1 n2 : Nat) (v : ℚ) :
    (step1 r0s ac st (Element.resistor pid n1 n2 true v)).subs_g =
      dictUpdate st.subs_g (resistor_G (Element.resistor pid n1 n2 true v))
        (Expr.div (Expr.num 1)
          (Expr.sym (resistor_R (Element.resistor pid n1 n2 true v)))) := rfl

/-- Accumulation of the auxiliary map over pass 1: with pairwise-distinct
fresh conductance symbols, the fold appends exactly one `G ↦ 1/R` entry
per symbolic resistor, in iteration order. -/
theorem pass1_fold_subs_g (r0s ac : Bool) :
    ∀ (l : List Element) (st : PState),
      ((symbolic_resistors l).map resistor_G).Nodup →
      (∀ g ∈ (symbolic_resistors l).map resistor_G, ∀ p ∈ st.subs_g, p.1 ≠ g) →
      (l.foldl (step1 r0s ac) st).subs_g =
        st.subs_g ++ (symbolic_resistors l).map resistor_subs_entry := by
  intro l
  induction l with
  | nil => intro st _ _; simp [symbolic_resistors]
  | cons e rest ih =>
    intro st hnd hdisj
    by_cases hsr : is_symbolic_resistor e = true
    · have hfilter : symbolic_resistors (e :: rest) = e :: symbolic_resistors rest := by
        simp [symbolic_resistors, List.filter_cons, hsr]
      rw [hfilter] at hnd hdisj
      rw [List.map_cons, List.nodup_cons] at hnd
      obtain ⟨hnotin, hnd'⟩ := hnd
      obtain ⟨pid, n1, n2, v, rfl⟩ :
          ∃ pid n1 n2 v, e = Element.resistor pid n1 n2 true v := by
        cases e
        case resistor pid n1 n2 sy v =>
          cases sy
          case false => simp [is_symbolic_resistor] at hsr
          case true => exact ⟨pid, n1, n2, v, rfl⟩
        all_goals simp [is_symbolic_resistor] at hsr
      have hfresh : ∀ p ∈ st.subs_g,
          p.1 ≠ resistor_G (Element.resistor pid n1 n2 true v) := by
        intro p hp
        exact hdisj _ (by simp) p hp
      have hstep : (step1 r0s ac st (Element.resistor pid n1 n2 true v)).subs_g =
          st.subs_g ++ [resistor_subs_entry (Element.resistor pid n1 n2 true v)] := by
        rw [step1_subs_g_symres]
        exact dictUpdate_fresh _ _ _ hfresh
      have hdisj' : ∀ g ∈ (symbolic_resistors rest).map resistor_G,
          ∀ p ∈ (step1 r0s ac st (Element.resistor pid n1 n2 true v)).subs_g,
            p.1 ≠ g := by
        intro g hg p hp
        rw [hstep] at hp
        rcases List.mem_append.mp hp with hpacc | hpa
        · exact hdisj g (List.mem_cons_of_mem _ hg) p hpacc
        · have hpe : p = resistor_subs_entry (Element.resistor pid n1 n2 true v) := by
            simpa using hpa
          subst hpe
          intro hcontra
          apply hnotin
          have : resistor_G (Element.resistor pid n1 n2 true v) = g := hcontra
          rw [this]
          exact hg
      have hrest := ih (step1 r0s ac st (Element.resistor pid n1 n2 true v)) hnd' hdisj'
      rw [List.foldl_cons, hrest, hstep, hfilter, List.map_cons]
      simp [List.append_assoc]
    · have hsr' : is_symbolic_resistor e = false := by
        cases hval : is_symbolic_resistor e
        · rfl
        · exact absurd hval hsr
      have hfilter : symbolic_resistors (e :: rest) = symbolic_resistors rest := by
        simp [symbolic_resistors, List.filter_cons, hsr']
      rw [hfilter] at hnd hdisj
      have hsub := step1_subs_g_const r0s ac st e hsr'
      have hdisj' : ∀ g ∈ (symbolic_resistors rest).map resistor_G,
          ∀ p ∈ (step1 r0s ac st e).subs_g, p.1 ≠ g := by
        intro g hg p hp
        rw [hsub] at hp
        exact hdisj g hg p hp
      have hrest := ih (step1 r0s ac st e) hnd hdisj'
      rw [List.foldl_cons, hrest, hsub, hfilter]

/-- Replacing a symbol other than `k` with a `k`-free value keeps an
expression `k`-free. -/
theorem occurs_replaceSym_of_not (k x : Sym) (v e : Expr)
    (hv : occursSym k v = false) (he : occursSym k e = false) :
    occursSym k (replaceSym x v e) = false := by
  induction e with
  | num q => rfl
  | sym y =>
    by_cases hxy : x == y
    · simp [replaceSym, hxy, hv]
    · simp only [replaceSym, hxy]
      simpa [occursSym] using he
  | add a b iha ihb =>
    simp only [occursSym, Bool.or_eq_false_iff] at he
    simp [replaceSym, occursSym, iha he.1, ihb he.2]
  | sub a b iha ihb =>
    simp only [occursSym, Bool.or_eq_false_iff] at he
    simp [replaceSym, occursSym, iha he.1, ihb he.2]
  | mul a b iha ihb =>
    simp only [occursSym, Bool.or_eq_false_iff] at he
    simp [replaceSym, occursSym, iha he.1, ihb he.2]
  | neg a iha =>
    simp only [occursSym] at he
    simp [replaceSym, occursSym, iha he]
  | div a b iha ihb =>
    simp only [occursSym, Bool.or_eq_false_iff] at he
    simp [replaceSym, occursSym, iha he.1, ihb he.2]

/-- Replacing `k` itself by a `k`-free value removes every occurrence of
`k`. -/
theorem occurs_replaceSym_self (k : Sym) (v e : Expr)
    (hv : occursSym k v = false) :
    occursSym k (replaceSym k v e) = false := by
  induction e with
  | num q => rfl
  | sym y =>
    by_cases hky : k == y
    · simp [replaceSym, hky, hv]
    · simp only [replaceSym, hky]
      simpa [occursSym] using hky
  | add a b iha ihb => simp [replaceSym, occursSym, iha, ihb]
  | sub a b iha ihb => simp [replaceSym, occursSym, iha, ihb]
  | mul a b iha ihb => simp [replaceSym, occursSym, iha, ihb]
  | neg a iha => simp [replaceSym, occursSym, iha]
  | div a b iha ihb => simp [replaceSym, occursSym, iha, ihb]

/-- A sequential substitution pass whose values never mention the key `k`
eliminates `k` whenever `k` is one of the keys (or was absent to begin
with). -/
theorem foldl_subst_no_occurs :
    ∀ (l : List (Sym × Expr)) (e : Expr) (k : Sym),
      (∀ p ∈ l, occursSym k p.2 = false) →
      (k ∈ l.map Prod.fst ∨ occursSym k e = false) →
      occursSym k (l.foldl (fun acc p => replaceSym p.1 p.2 acc) e) = false := by
  intro l
  induction l with
  | nil =>
    intro e k _ hdisj
    rcases hdisj with habs | he
    · exact absurd habs (by simp)
    · exact he
  | cons p rest ih =>
    intro e k hvals hdisj
    have hvp : occursSym k p.2 = false := hvals p (by simp)
    have hvrest : ∀ q ∈ rest, occursSym k q.2 = false := by
      intro q hq; exact hvals q (List.mem_cons_of_mem _ hq)
    rw [List.foldl_cons]
    by_cases hpk : p.1 = k
    · apply ih _ _ hvrest
      right
      rw [hpk]
      exact occurs_replaceSym_self k p.2 e hvp
    · rcases hdisj with hmem | he
      · rw [List.map_cons, List.mem_cons] at hmem
        rcases hmem with heq | hmem'
        · exact absurd heq.symm hpk
        · exact ih _ _ hvrest (Or.inl hmem')
      · exact ih _ _ hvrest (Or.inr (occurs_replaceSym_of_not k p.1 p.2 e hvp he))

/-- Membership is preserved by the canonical-order insertion. -/
theorem mem_insertSub (p q : Sym × Expr) :
    ∀ l : List (Sym × Expr), q ∈ insertSub p l ↔ q = p ∨ q ∈ l := by
  intro l
  induction l with
  | nil => simp [insertSub]
  | cons r rest ih =>
    simp only [insertSub]
    split
    · simp only [List.mem_cons, ih]
      tauto
    · simp only [List.mem_cons]

/-- Membership is preserved by the canonical sorting of a substitution
mapping. -/
theorem mem_sortSubs (q : Sym × Expr) :
    ∀ l : List (Sym × Expr), q ∈ sortSubs l ↔ q ∈ l := by
  intro l
  induction l with
  | nil => simp [sortSubs]
  | cons p rest ih =>
    simp only [sortSubs, mem_insertSub, ih, List.mem_cons]

/-- `subst` with a mapping whose values are free of every key eliminates
each key from any expression. -/
theorem subst_no_occurs (al : List (Sym × Expr)) (e : Expr) (k : Sym)
    (hk : k ∈ al.map Prod.fst)
    (hv : ∀ p ∈ al, occursSym k p.2 = false) :
    occursSym k (subst al e) = false := by
  apply foldl_subst_no_occurs
  · intro p hp
    exact hv p ((mem_sortSubs p al).mp hp)
  · left
    obtain ⟨p, hp, hfst⟩ := List.mem_map.mp hk
    exact List.mem_map.mpr ⟨p, (mem_sortSubs p al).mpr hp, hfst⟩

/-- C3: pass 1 records exactly one auxiliary-map entry `G ↦ 1/R` per
symbolic resistor (in iteration order), stamps the four terminal
positions of the matrix with the conductance symbol `G`, and the
post-solve rewrite with this map eliminates every internal conductance
symbol from any solution expression. -/
theorem C3_resistor_conductance_map (circ : Circuit) (r0s ac : Bool)
    (hnd : (Glist circ).Nodup)
    (hGR : ∀ g ∈ Glist circ, ∀ e ∈ symbolic_resistors circ.elements,
      g ≠ resistor_R e) :
    (pass1 circ r0s ac).subs_g =
      (symbolic_resistors circ.elements).map resistor_subs_entry ∧
    (∀ (st : PState) (pid : String) (n1 n2 : Nat) (v : ℚ), n1 ≠ n2 →
      ((step1 r0s ac st (Element.resistor pid n1 n2 true v)).mna.entry n1 n1 =
          Expr.add (st.mna.entry n1 n1)
            (Expr.sym (resistor_G (Element.resistor pid n1 n2 true v))) ∧
        (step1 r0s ac st (Element.resistor pid n1 n2 true v)).mna.entry n1 n2 =
          Expr.sub (st.mna.entry n1 n2)
            (Expr.sym (resistor_G (Element.resistor pid n1 n2 true v))) ∧
        (step1 r0s ac st (Element.resistor pid n1 n2 true v)).mna.entry n2 n1 =
          Expr.sub (st.mna.entry n2 n1)
            (Expr.sym (resistor_G (Element.resistor pid n1 n2 true v))) ∧
        (step1 r0s ac st (Element.resistor pid n1 n2 true v)).mna.entry n2 n2 =
          Expr.add (st.mna.entry n2 n2)
            (Expr.sym (resistor_G (Element.resistor pid n1 n2 true v)))) ∧
      (step1 r0s ac st (Element.resistor pid n1 n2 true v)).subs_g =
        dictUpdate st.subs_g (resistor_G (Element.resistor pid n1 n2 true v))
          (Expr.div (Expr.num 1)
            (Expr.sym (resistor_R (Element.resistor pid n1 n2 true v))))) ∧
    (∀ (v : Expr) (g : Sym), g ∈ Glist circ →
      occursSym g (subst (pass1 circ r0s ac).subs_g v) = false) := by
  have hchar : (pass1 circ r0s ac).subs_g =
      (symbolic_resistors circ.elements).map resistor_subs_entry := by
    have := pass1_fold_subs_g r0s ac circ.elements
      ⟨smzeros circ.n_nodes circ.n_nodes, smzeros circ.n_nodes 1, []⟩
      hnd (by intro g _ p hp; exact absurd hp (List.not_mem_nil p))
    simpa [pass1] using this
  refine ⟨hchar, ?_, ?_⟩
  · intro st pid n1 n2 v hne
    have h12 : ¬(n1 = n2) := hne
    have h21 : ¬(n2 = n1) := fun h => hne h.symm
    refine ⟨⟨?_, ?_, ?_, ?_⟩, rfl⟩ <;>
      simp [step1, Mat.set, h12, h21, resistor_G, Element.part_id]
  · intro v g hg
    apply subst_no_occurs
    · rw [hchar]
      obtain ⟨e, he, hge⟩ := List.mem_map.mp hg
      refine List.mem_map.mpr ⟨resistor_subs_entry e, List.mem_map.mpr ⟨e, he, rfl⟩, ?_⟩
      rw [← hge]
      rfl
    · intro p hp
      rw [hchar] at hp
      obtain ⟨e, he, hpe⟩ := List.mem_map.mp hp
      subst hpe
      have hne : g ≠ resistor_R e := hGR g hg e he
      simp [resistor_subs_entry, occursSym]
      exact hne

/-- Witness for C3 on a concrete one-resistor circuit. -/
theorem C3_resistor_conductance_map_witness :
    ((Glist circVRL).Nodup ∧
      ∀ g ∈ Glist circVRL, ∀ e ∈ symbolic_resistors circVRL.elements,
        g ≠ resistor_R e) ∧
    (pass1 circVRL false true).subs_g =
      (symbolic_resistors circVRL.elements).map resistor_subs_entry :=
  ⟨⟨by decide, by decide⟩,
    (C3_resistor_conductance_map circVRL false true (by decide) (by decide)).1⟩

/-! Claim C1: the pass-2 stamp of a voltage-defined element. -/

theorem expand_tt_rows (m : Mat) : (expand_matrix m true true).rows = m.rows + 1 := rfl

theorem expand_tt_cols (m : Mat) : (expand_matrix m true true).cols = m.cols + 1 := rfl

theorem expand_tf_rows (m : Mat) : (expand_matrix m true false).rows = m.rows + 1 := rfl

theorem expand_tf_cols (m : Mat) : (expand_matrix m true false).cols = m.cols := rfl

theorem expand_tt_entry (m : Mat) (i j : Nat) :
    (expand_matrix m true true).entry i j =
      if j < m.cols then (if i < m.rows then m.entry i j else Expr.num 0)
      else Expr.num 0 := rfl

theorem expand_tf_entry (m : Mat) (i j : Nat) :
    (expand_matrix m true false).entry i j =
      if i < m.rows then m.entry i j else Expr.num 0 := rfl

/-- C1: for a voltage-defined element of recognized class with wellformed
terminals, pass 2 grows the matrix by one row and one column and the
vector by one row, sets `+1`/`-1` at the element's terminal rows in the
new column and `+1`/`-1` at its terminal columns in the new row, and
stamps the element-specific relation (source value into the new vector
entry; VCVS gains into the controlling-node columns; CCVS gain into the
controlled source's auxiliary-current column; `-s*L` on the inductor's
new diagonal entry when frequency dependence is enabled). -/
theorem C1_pass2_vde_stamp (circ : Circuit) (ac : Bool) (st : PState) (e : Element)
    (hc : st.mna.cols = st.mna.rows) (hN : st.N.rows = st.mna.rows)
    (hn : circ.n_nodes ≤ st.mna.rows) (hok : C1hyps circ e) :
    ∃ st', step2 circ ac st e = Except.ok st' ∧
      st'.mna.rows = st.mna.rows + 1 ∧ st'.mna.cols = st.mna.rows + 1 ∧
      st'.N.rows = st.mna.rows + 1 ∧
      st'.mna.entry e.n1 st.mna.rows = Expr.num 1 ∧
      st'.mna.entry e.n2 st.mna.rows = Expr.num (-1) ∧
      st'.mna.entry st.mna.rows e.n1 = Expr.num 1 ∧
      st'.mna.entry st.mna.rows e.n2 = Expr.num (-1) ∧
      C1specific circ ac e st.mna.rows st' := by
  cases e with
  | vsource pid n1 n2 sy dc =>
    obtain ⟨hn1, hn2, hne, -, -⟩ := hok
    have hA : ¬(n1 = st.mna.rows) := Nat.ne_of_lt (lt_of_lt_of_le hn1 hn)
    have hB : ¬(n2 = st.mna.rows) := Nat.ne_of_lt (lt_of_lt_of_le hn2 hn)
    have h12 : ¬(n1 = n2) := hne
    have h21 : ¬(n2 = n1) := fun h => hne h.symm
    refine ⟨_, rfl, ?_, ?_, ?_, ?_, ?_, ?_, ?_, ?_⟩ <;>
      simp [C1specific, Element.n1, Element.n2, Mat.entry_set, Mat.set_rows,
        Mat.set_cols, expand_tt_rows, expand_tt_cols, expand_tf_rows, hc, hN,
        hA, hB, h12, h21]
  | evsource pid n1 n2 sn1 sn2 sy a =>
    obtain ⟨hn1, hn2, hne, -, hs1, hs2, hss, hs1n1, hs1n2, hs2n1, hs2n2⟩ := hok
    have hA : ¬(n1 = st.mna.rows) := Nat.ne_of_lt (lt_of_lt_of_le hn1 hn)
    have hB : ¬(n2 = st.mna.rows) := Nat.ne_of_lt (lt_of_lt_of_le hn2 hn)
    have h12 : ¬(n1 = n2) := hne
    have h21 : ¬(n2 = n1) := fun h => hne h.symm
    have hq1 : ¬(n1 = sn1) := fun h => hs1n1 h.symm
    have hq2 : ¬(n1 = sn2) := fun h => hs2n1 h.symm
    have hq3 : ¬(n2 = sn1) := fun h => hs1n2 h.symm
    have hq4 : ¬(n2 = sn2) := fun h => hs2n2 h.symm
    have hq5 : ¬(sn1 = sn2) := hss
    have hq6 : ¬(sn2 = sn1) := fun h => hss h.symm
    refine ⟨_, rfl, ?_, ?_, ?_, ?_, ?_, ?_, ?_, ?_, ?_⟩ <;>
      simp [C1specific, Element.n1, Element.n2, Mat.entry_set, Mat.set_rows,
        Mat.set_cols, expand_tt_rows, expand_tt_cols, expand_tf_rows, hc, hN,
        hA, hB, h12, h21, hq1, hq2, hq3, hq4, hq5, hq6]
  | hvsource pid n1 n2 sid sy a =>
    obtain ⟨hn1, hn2, hne, -, hfind⟩ := hok
    obtain ⟨k, hk⟩ := Option.isSome_iff_exists.mp hfind
    have hA : ¬(n1 = st.mna.rows) := Nat.ne_of_lt (lt_of_lt_of_le hn1 hn)
    have hB : ¬(n2 = st.mna.rows) := Nat.ne_of_lt (lt_of_lt_of_le hn2 hn)
    have h12 : ¬(n1 = n2) := hne
    have h21 : ¬(n2 = n1) := fun h => hne h.symm
    have hK1 : ¬(n1 = circ.n_nodes + k) :=
      Nat.ne_of_lt (lt_of_lt_of_le hn1 (Nat.le_add_right _ _))
    have hK2 : ¬(n2 = circ.n_nodes + k) :=
      Nat.ne_of_lt (lt_of_lt_of_le hn2 (Nat.le_add_right _ _))
    simp only [step2, hk]
    refine ⟨_, rfl, ?_, ?_, ?_, ?_, ?_, ?_, ?_, ?_⟩ <;>
      simp [C1specific, Element.n1, Element.n2, Mat.entry_set, Mat.set_rows,
        Mat.set_cols, expand_tt_rows, expand_tt_cols, expand_tf_rows, hc, hN,
        hA, hB, h12, h21, hK1, hK2, hk]
  | inductor pid n1 n2 sy Lval cds =>
    obtain ⟨hn1, hn2, hne, -, -⟩ := hok
    have hA : ¬(n1 = st.mna.rows) := Nat.ne_of_lt (lt_of_lt_of_le hn1 hn)
    have hB : ¬(n2 = st.mna.rows) := Nat.ne_of_lt (lt_of_lt_of_le hn2 hn)
    have h12 : ¬(n1 = n2) := hne
    have h21 : ¬(n2 = n1) := fun h => hne h.symm
    cases ac with
    | true =>
      refine ⟨_, rfl, ?_, ?_, ?_, ?_, ?_, ?_, ?_, ?_⟩ <;>
        simp [C1specific, Element.n1, Element.n2, Mat.entry_set, Mat.set_rows,
          Mat.set_cols, expand_tt_rows, expand_tt_cols, expand_tf_rows, hc, hN,
          hA, hB, h12, h21]
    | false =>
      refine ⟨_, rfl, ?_, ?_, ?_, ?_, ?_, ?_, ?_, ?_⟩ <;>
        simp [C1specific, Element.n1, Element.n2, Mat.entry_set, Mat.set_rows,
          Mat.set_cols, expand_tt_rows, expand_tt_cols, expand_tf_rows, hc, hN,
          hA, hB, h12, h21]
  | resistor pid n1 n2 sy v =>
    obtain ⟨-, -, -, hsup, -⟩ := hok
    simp [vde_supported] at hsup
  | capacitor pid n1 n2 sy v =>
    obtain ⟨-, -, -, hsup, -⟩ := hok
    simp [vde_supported] at hsup
  | isource pid n1 n2 sy dc =>
    obtain ⟨-, -, -, hsup, -⟩ := hok
    simp [vde_supported] at hsup
  | gisource pid n1 n2 sn1 sn2 sy a =>
    obtain ⟨-, -, -, hsup, -⟩ := hok
    simp [vde_supported] at hsup
  | fisource pid n1 n2 sid sy a =>
    obtain ⟨-, -, -, hsup, -⟩ := hok
    simp [vde_supported] at hsup
  | inductor_coupling pid =>
    obtain ⟨-, -, -, hsup, -⟩ := hok
    simp [vde_supported] at hsup
  | mostrans pid n1 ng n2 =>
    obtain ⟨-, -, -, hsup, -⟩ := hok
    simp [vde_supported] at hsup
  | diode pid n1 n2 =>
    obtain ⟨-, -, -, hsup, -⟩ := hok
    simp [vde_supported] at hsup
  | other pid n1 n2 vd =>
    obtain ⟨-, -, -, hsup, -⟩ := hok
    simp [vde_supported] at hsup

/-- Witness for C1: a concrete independent voltage source stamped into a
3-node state. -/
theorem C1_pass2_vde_stamp_witness :
    ((⟨smzeros 3 3, smzeros 3 1, []⟩ : PState).mna.cols =
        (⟨smzeros 3 3, smzeros 3 1, []⟩ : PState).mna.rows ∧
      (⟨smzeros 3 3, smzeros 3 1, []⟩ : PState).N.rows =
        (⟨smzeros 3 3, smzeros 3 1, []⟩ : PState).mna.rows ∧
      circVRL.n_nodes ≤ (⟨smzeros 3 3, smzeros 3 1, []⟩ : PState).mna.rows ∧
      C1hyps circVRL (Element.vsource "V1" 1 0 true 5)) ∧
    (∃ st', step2 circVRL true (⟨smzeros 3 3, smzeros 3 1, []⟩ : PState)
        (Element.vsource "V1" 1 0 true 5) = Except.ok st' ∧
      st'.mna.rows = 3 + 1 ∧ st'.mna.cols = 3 + 1 ∧ st'.N.rows = 3 + 1 ∧
      st'.mna.entry (Element.vsource "V1" 1 0 true 5).n1 3 = Expr.num 1 ∧
      st'.mna.entry (Element.vsource "V1" 1 0 true 5).n2 3 = Expr.num (-1) ∧
      st'.mna.entry 3 (Element.vsource "V1" 1 0 true 5).n1 = Expr.num 1 ∧
      st'.mna.entry 3 (Element.vsource "V1" 1 0 true 5).n2 = Expr.num (-1) ∧
      C1specific circVRL true (Element.vsource "V1" 1 0 true 5) 3 st') :=
  ⟨⟨rfl, rfl, by decide, by decide, by decide, by decide, rfl, trivial⟩,
    C1_pass2_vde_stamp circVRL true ⟨smzeros 3 3, smzeros 3 1, []⟩
      (Element.vsource "V1" 1 0 true 5) rfl rfl (by decide)
      ⟨by decide, by decide, by decide, rfl, trivial⟩⟩

/-! Claim C2: unknown ordering versus the assembler's row/column
assignment. -/

/-- Entry updates off a given column leave an entry unchanged. -/
theorem Mat.entry_set_ne_col (m : Mat) (r c : Nat) (v : Expr) (i j : Nat)
    (h : ¬(j = c)) : (m.set r c v).entry i j = m.entry i j := by
  simp [Mat.entry_set, h]

/-- Entry updates off a given row leave an entry unchanged. -/
theorem Mat.entry_set_ne_row (m : Mat) (r c : Nat) (v : Expr) (i j : Nat)
    (h : ¬(i = r)) : (m.set r c v).entry i j = m.entry i j := by
  simp [Mat.entry_set, h]

set_option maxHeartbeats 1000000 in
/-- Pass-1 stamps never change the matrix and vector dimensions. -/
theorem step1_sizes (r0s ac : Bool) (st : PState) (e : Element) :
    (step1 r0s ac st e).mna.rows = st.mna.rows ∧
    (step1 r0s ac st e).mna.cols = st.mna.cols ∧
    (step1 r0s ac st e).N.rows = st.N.rows := by
  cases e <;> cases ac <;> cases r0s <;> exact ⟨rfl, rfl, rfl⟩

/-- Pass 1 as a whole preserves the dimensions. -/
theorem foldl_step1_sizes (r0s ac : Bool) :
    ∀ (l : List Element) (st : PState),
      ((l.foldl (step1 r0s ac) st).mna.rows = st.mna.rows ∧
       (l.foldl (step1 r0s ac) st).mna.cols = st.mna.cols ∧
       (l.foldl (step1 r0s ac) st).N.rows = st.N.rows) := by
  intro l
  induction l with
  | nil => intro st; exact ⟨rfl, rfl, rfl⟩
  | cons e rest ih =>
    intro st
    have h1 := step1_sizes r0s ac st e
    have h2 := ih (step1 r0s ac st e)
    rw [List.foldl_cons]
    exact ⟨h2.1.trans h1.1, h2.2.1.trans h1.2.1, h2.2.2.trans h1.2.2⟩

/-- The dimensions of the pass-1 output. -/
theorem pass1_sizes (circ : Circuit) (r0s ac : Bool) :
    (pass1 circ r0s ac).mna.rows = circ.n_nodes ∧
    (pass1 circ r0s ac).mna.cols = circ.n_nodes ∧
    (pass1 circ r0s ac).N.rows = circ.n_nodes :=
  foldl_step1_sizes r0s ac circ.elements
    ⟨smzeros circ.n_nodes circ.n_nodes, smzeros circ.n_nodes 1, []⟩

/-- Terminal bounds packed into `pass2_elem_ok` for a voltage-defined
element. -/
theorem pass2_elem_ok_bounds (circ : Circuit) (e : Element)
    (hv : is_elem_voltage_defined e = true)
    (hok : pass2_elem_ok circ e = true) :
    e.n1 < circ.n_nodes ∧ e.n2 < circ.n_nodes ∧ e.n1 ≠ e.n2 := by
  cases e <;>
    simp_all [pass2_elem_ok, is_elem_voltage_defined, Element.n1, Element.n2]

/-- One pass-2 step on a wellformed voltage-defined element: success, the
one-row/one-column growth, the KCL stamps in the new column, and
preservation of every entry strictly inside the old square. -/
theorem step2_ok (circ : Circuit) (ac : Bool) (st : PState) (e : Element)
    (hsq : st.mna.cols = st.mna.rows) (hN : st.N.rows = st.mna.rows)
    (hn : circ.n_nodes ≤ st.mna.rows)
    (hvde : is_elem_voltage_defined e = true)
    (hok : pass2_elem_ok circ e = true) :
    ∃ st', step2 circ ac st e = Except.ok st' ∧
      st'.mna.rows = st.mna.rows + 1 ∧ st'.mna.cols = st.mna.rows + 1 ∧
      st'.N.rows = st.mna.rows + 1 ∧
      st'.mna.entry e.n1 st.mna.rows = Expr.num 1 ∧
      st'.mna.entry e.n2 st.mna.rows = Expr.num (-1) ∧
      (∀ r c, r < st.mna.rows → c < st.mna.rows →
        st'.mna.entry r c = st.mna.entry r c) := by
  obtain ⟨hn1, hn2, hne⟩ := pass2_elem_ok_bounds circ e hvde hok
  have hA : ¬(e.n1 = st.mna.rows) := Nat.ne_of_lt (lt_of_lt_of_le hn1 hn)
  have hB : ¬(e.n2 = st.mna.rows) := Nat.ne_of_lt (lt_of_lt_of_le hn2 hn)
  have h12 : ¬(e.n1 = e.n2) := hne
  have h21 : ¬(e.n2 = e.n1) := fun h => hne h.symm
  have hpres : ∀ (m : Mat) (r c : Nat), r < st.mna.rows → c < st.mna.rows →
      m = expand_matrix st.mna true true →
      ∀ rr cc (v : Expr), (rr = st.mna.rows ∨ cc = st.mna.rows) →
        (m.set rr cc v).entry r c = m.entry r c := by
    intro m r c hr hc hm rr cc v hor
    rcases hor with hrr | hcc
    · exact Mat.entry_set_ne_row m rr cc v r c (by rw [hrr]; exact Nat.ne_of_lt hr)
    · exact Mat.entry_set_ne_col m rr cc v r c (by rw [hcc]; exact Nat.ne_of_lt hc)
  have hbase : ∀ r c, r < st.mna.rows → c < st.mna.rows →
      (expand_matrix st.mna true true).entry r c = st.mna.entry r c := by
    intro r c hr hc
    have hcc : c < st.mna.cols := by rw [hsq]; exact hc
    simp [expand_tt_entry, hr, hcc]
  cases e with
  | vsource pid n1 n2 sy dc =>
    simp only [Element.n1, Element.n2] at hA hB h12 h21 hn1 hn2
    refine ⟨_, rfl, rfl, ?_, ?_, ?_, ?_, ?_⟩
    · simp [Mat.set_cols, expand_tt_cols, hsq]
    · simp [Mat.set_rows, expand_tf_rows, hN]
    · simp [Element.n1, Element.n2, Mat.entry_set, hA, hB, h12, h21]
    · simp [Element.n1, Element.n2, Mat.entry_set, hA, hB, h12, h21]
    · intro r c hr hc
      have hrR : ¬(r = st.mna.rows) := Nat.ne_of_lt hr
      have hcR : ¬(c = st.mna.rows) := Nat.ne_of_lt hc
      simp [Mat.entry_set_ne_row, Mat.entry_set_ne_col, hrR, hcR, hbase r c hr hc]
  | evsource pid n1 n2 sn1 sn2 sy a =>
    simp only [Element.n1, Element.n2] at hA hB h12 h21 hn1 hn2
    refine ⟨_, rfl, rfl, ?_, ?_, ?_, ?_, ?_⟩
    · simp [Mat.set_cols, expand_tt_cols, hsq]
    · simp [Mat.set_rows, expand_tf_rows, hN]
    · simp [Element.n1, Element.n2, Mat.entry_set, hA, hB, h12, h21]
    · simp [Element.n1, Element.n2, Mat.entry_set, hA, hB, h12, h21]
    · intro r c hr hc
      have hrR : ¬(r = st.mna.rows) := Nat.ne_of_lt hr
      have hcR : ¬(c = st.mna.rows) := Nat.ne_of_lt hc
      simp [Mat.entry_set_ne_row, Mat.entry_set_ne_col, hrR, hcR, hbase r c hr hc]
  | hvsource pid n1 n2 sid sy a =>
    simp only [Element.n1, Element.n2] at hA hB h12 h21 hn1 hn2
    have hfind : (circ.find_vde_index sid).isSome = true := by
      simp only [pass2_elem_ok, Bool.and_eq_true] at hok
      exact hok.2
    obtain ⟨k, hk⟩ := Option.isSome_iff_exists.mp hfind
    simp only [step2, hk]
    refine ⟨_, rfl, rfl, ?_, ?_, ?_, ?_, ?_⟩
    · simp [Mat.set_cols, expand_tt_cols, hsq]
    · simp [Mat.set_rows, expand_tf_rows, hN]
    · have hK1 : ¬(n1 = circ.n_nodes + k) :=
        Nat.ne_of_lt (lt_of_lt_of_le hn1 (Nat.le_add_right _ _))
      simp [Element.n1, Element.n2, Mat.entry_set, hA, hB, h12, h21, hK1]
    · have hK2 : ¬(n2 = circ.n_nodes + k) :=
        Nat.ne_of_lt (lt_of_lt_of_le hn2 (Nat.le_add_right _ _))
      simp [Element.n1, Element.n2, Mat.entry_set, hA, hB, h12, h21, hK2]
    · intro r c hr hc
      have hrR : ¬(r = st.mna.rows) := Nat.ne_of_lt hr
      have hcR : ¬(c = st.mna.rows) := Nat.ne_of_lt hc
      simp [Mat.entry_set_ne_row, Mat.entry_set_ne_col, hrR, hcR, hbase r c hr hc]
  | inductor pid n1 n2 sy Lval cds =>
    simp only [Element.n1, Element.n2] at hA hB h12 h21 hn1 hn2
    cases ac with
    | true =>
      refine ⟨_, rfl, rfl, ?_, ?_, ?_, ?_, ?_⟩
      · simp [Mat.set_cols, expand_tt_cols, hsq]
      · simp [Mat.set_rows, expand_tf_rows, hN]
      · simp [Element.n1, Element.n2, Mat.entry_set, hA, hB, h12, h21]
      · simp [Element.n1, Element.n2, Mat.entry_set, hA, hB, h12, h21]
      · intro r c hr hc
        have hrR : ¬(r = st.mna.rows) := Nat.ne_of_lt hr
        have hcR : ¬(c = st.mna.rows) := Nat.ne_of_lt hc
        simp [Mat.entry_set_ne_row, Mat.entry_set_ne_col, hrR, hcR, hbase r c hr hc]
    | false =>
      refine ⟨_, rfl, rfl, ?_, ?_, ?_, ?_, ?_⟩
      · simp [Mat.set_cols, expand_tt_cols, hsq]
      · simp [Mat.set_rows, expand_tf_rows, hN]
      · simp [Element.n1, Element.n2, Mat.entry_set, hA, hB, h12, h21]
      · simp [Element.n1, Element.n2, Mat.entry_set, hA, hB, h12, h21]
      · intro r c hr hc
        have hrR : ¬(r = st.mna.rows) := Nat.ne_of_lt hr
        have hcR : ¬(c = st.mna.rows) := Nat.ne_of_lt hc
        simp [Mat.entry_set_ne_row, Mat.entry_set_ne_col, hrR, hcR, hbase r c hr hc]
  | other pid n1 n2 vd =>
    simp only [is_elem_voltage_defined] at hvde
    simp only [pass2_elem_ok] at hok
    rw [hvde] at hok
    exact absurd hok (by simp)
  | resistor pid n1 n2 sy v => simp [is_elem_voltage_defined] at hvde
  | capacitor pid n1 n2 sy v => simp [is_elem_voltage_defined] at hvde
  | isource pid n1 n2 sy dc => simp [is_elem_voltage_defined] at hvde
  | gisource pid n1 n2 sn1 sn2 sy a => simp [is_elem_voltage_defined] at hvde
  | fisource pid n1 n2 sid sy a => simp [is_elem_voltage_defined] at hvde
  | inductor_coupling pid => simp [is_elem_voltage_defined] at hvde
  | mostrans pid n1 ng n2 => simp [is_elem_voltage_defined] at hvde
  | diode pid n1 n2 => simp [is_elem_voltage_defined] at hvde

theorem countVde_cons_vde (e : Element) (l : List Element)
    (h : is_elem_voltage_defined e = true) :
    countVde (e :: l) = countVde l + 1 := by
  simp [countVde, vdeList, List.filter_cons, h]

theorem countVde_cons_nonvde (e : Element) (l : List Element)
    (h : is_elem_voltage_defined e = false) :
    countVde (e :: l) = countVde l := by
  simp [countVde, vdeList, List.filter_cons, h]

theorem vdeAt_cons_vde_zero (e : Element) (l : List Element)
    (h : is_elem_voltage_defined e = true) : vdeAt (e :: l) 0 = e := by
  simp [vdeAt, vdeList, List.filter_cons, h]

theorem vdeAt_cons_vde_succ (e : Element) (l : List Element) (k : Nat)
    (h : is_elem_voltage_defined e = true) : vdeAt (e :: l) (k + 1) = vdeAt l k := by
  simp [vdeAt, vdeList, List.filter_cons, h]

theorem vdeAt_cons_nonvde (e : Element) (l : List Element) (k : Nat)
    (h : is_elem_voltage_defined e = false) : vdeAt (e :: l) k = vdeAt l k := by
  simp [vdeAt, vdeList, List.filter_cons, h]

/-- The `k`-th voltage-defined element belongs to the list. -/
theorem vdeAt_mem (l : List Element) (k : Nat) (h : k < countVde l) :
    vdeAt l k ∈ l := by
  have hmem : vdeAt l k ∈ vdeList l := by
    unfold vdeAt
    rw [List.getD_eq_getElem _ _ h]
    exact List.getElem_mem h
  exact List.mem_of_mem_filter hmem

/-- Pass 2 over a wellformed element list: it succeeds, the matrix and
vector grow by exactly one row (and column) per voltage-defined element,
the `k`-th voltage-defined element's KCL coupling lands in column
`rows + k`, and entries of the old square with node rows are
untouched. -/
theorem pass2_assign (circ : Circuit) (ac : Bool) :
    ∀ (l : List Element) (st : PState),
      (∀ e ∈ l, pass2_elem_ok circ e = true) →
      st.mna.cols = st.mna.rows → st.N.rows = st.mna.rows →
      circ.n_nodes ≤ st.mna.rows →
      ∃ st', pass2 circ ac st l = Except.ok st' ∧
        st'.mna.rows = st.mna.rows + countVde l ∧
        st'.mna.cols = st.mna.rows + countVde l ∧
        st'.N.rows = st.mna.rows + countVde l ∧
        (∀ k, k < countVde l →
          st'.mna.entry (vdeAt l k).n1 (st.mna.rows + k) = Expr.num 1 ∧
          st'.mna.entry (vdeAt l k).n2 (st.mna.rows + k) = Expr.num (-1)) ∧
        (∀ r c, r < circ.n_nodes → c < st.mna.rows →
          st'.mna.entry r c = st.mna.entry r c) := by
  intro l
  induction l with
  | nil =>
    intro st _ hsq hN _
    refine ⟨st, rfl, ?_, ?_, ?_, ?_, ?_⟩
    · simp [countVde, vdeList]
    · simp [countVde, vdeList, hsq]
    · simp [countVde, vdeList, hN]
    · intro k hk
      simp [countVde, vdeList] at hk
    · intro r c _ _
      rfl
  | cons e rest ih =>
    intro st hall hsq hN hn
    have htail : ∀ e' ∈ rest, pass2_elem_ok circ e' = true := by
      intro e' he'
      exact hall e' (List.mem_cons_of_mem _ he')
    cases hv : is_elem_voltage_defined e with
    | false =>
      obtain ⟨st', hrest, hr', hc', hN', hent, hpres⟩ := ih st htail hsq hN hn
      refine ⟨st', ?_, ?_, ?_, ?_, ?_, hpres⟩
      · simp [pass2, hv, hrest]
      · rw [hr', countVde_cons_nonvde e rest hv]
      · rw [hc', countVde_cons_nonvde e rest hv]
      · rw [hN', countVde_cons_nonvde e rest hv]
      · intro k hk
        rw [countVde_cons_nonvde e rest hv] at hk
        rw [vdeAt_cons_nonvde e rest k hv]
        exact hent k hk
    | true =>
      obtain ⟨st1, hstep, hr1, hc1, hN1, hkcl1, hkcl2, hpres1⟩ :=
        step2_ok circ ac st e hsq hN hn hv (hall e (List.mem_cons_self e rest))
      have hsq1 : st1.mna.cols = st1.mna.rows := by rw [hc1, hr1]
      have hN1' : st1.N.rows = st1.mna.rows := by rw [hN1, hr1]
      have hn1' : circ.n_nodes ≤ st1.mna.rows := by
        rw [hr1]; exact le_trans hn (Nat.le_succ _)
      obtain ⟨st', hrest, hr', hc', hN', hent, hpres'⟩ := ih st1 htail hsq1 hN1' hn1'
      have hcount := countVde_cons_vde e rest hv
      have hrows1 : st1.mna.rows = st.mna.rows + 1 := hr1
      refine ⟨st', ?_, ?_, ?_, ?_, ?_, ?_⟩
      · simp [pass2, hv, hstep, hrest]
      · rw [hr', hrows1, hcount]; omega
      · rw [hc', hrows1, hcount]; omega
      · rw [hN', hrows1, hcount]; omega
      · intro k hk
        rw [hcount] at hk
        cases k with
        | zero =>
          rw [vdeAt_cons_vde_zero e rest hv]
          have hb := pass2_elem_ok_bounds circ e hv (hall e (List.mem_cons_self e rest))
          have hcol : st.mna.rows + 0 < st1.mna.rows := by rw [hrows1]; omega
          constructor
          · rw [Nat.add_zero]
            rw [hpres' e.n1 st.mna.rows hb.1 (by rw [hrows1]; omega)]
            exact hkcl1
          · rw [Nat.add_zero]
            rw [hpres' e.n2 st.mna.rows hb.2.1 (by rw [hrows1]; omega)]
            exact hkcl2
        | succ k' =>
          rw [vdeAt_cons_vde_succ e rest k' hv]
          have hk' : k' < countVde rest := by omega
          have hidx : st.mna.rows + (k' + 1) = st1.mna.rows + k' := by
            rw [hrows1]; omega
          rw [hidx]
          exact hent k' hk'
      · intro r c hr hcR
        rw [hpres' r c hr (by rw [hrows1]; omega)]
        exact hpres1 r c (lt_of_lt_of_le hr hn) hcR

/-- A fold of single-entry column-0 writes over `range n`, characterized
entrywise. -/
theorem foldl_set_col0 (B : Mat → Nat → Mat) (f : Nat → Expr)
    (hB : ∀ (x : Mat) (i : Nat), B x i = x.set i 0 (f i)) :
    ∀ (n : Nat) (z : Mat),
      ((List.range n).foldl B z).rows = z.rows ∧
      ((List.range n).foldl B z).cols = z.cols ∧
      (∀ i j, ((List.range n).foldl B z).entry i j =
        if i < n ∧ j = 0 then f i else z.entry i j) := by
  intro n
  induction n with
  | zero =>
    intro z
    refine ⟨rfl, rfl, ?_⟩
    intro i j
    simp
  | succ n ihn =>
    intro z
    obtain ⟨hr, hc, hent⟩ := ihn z
    rw [List.range_succ, List.foldl_append, List.foldl_cons, List.foldl_nil, hB]
    refine ⟨by rw [Mat.set_rows, hr], by rw [Mat.set_cols, hc], ?_⟩
    intro i j
    rw [Mat.entry_set]
    by_cases hi : i = n
    · subst hi
      rw [hent]
      by_cases hj : j = 0
      · simp [hj, Nat.lt_succ_self]
      · simp [hj]
    · have hiff : (i < n ∧ j = 0) ↔ (i < n + 1 ∧ j = 0) := by
        constructor
        · rintro ⟨ha, hb⟩; exact ⟨by omega, hb⟩
        · rintro ⟨ha, hb⟩; exact ⟨by omega, hb⟩
      rw [if_neg hi, hent]
      exact if_congr hiff rfl rfl

/-- `getD` through `map` for an in-range index. -/
theorem getD_map_lt {α β : Type} (f : α → β) :
    ∀ (l : List α) (k : Nat) (d : β) (d' : α), k < l.length →
      (l.map f).getD k d = f (l.getD k d') := by
  intro l
  induction l with
  | nil =>
    intro k d d' h
    simp at h
  | cons a rest ih =>
    intro k d d' h
    cases k with
    | zero => rfl
    | succ k' =>
      simp only [List.map_cons, List.getD_cons_succ]
      exact ih k' d d' (by simpa using h)

/-- The entrywise description of `get_variables`: `V`-symbols for
non-reference nodes in index order, then `I[...]`-symbols for the
voltage-defined elements in iteration order. -/
theorem get_variables_char (circ : Circuit) :
    (get_variables circ).rows = (circ.n_nodes - 1) + countVde circ.elements ∧
    (get_variables circ).cols = 1 ∧
    (∀ i j, (get_variables circ).entry i j =
      if i < (circ.n_nodes - 1) + countVde circ.elements ∧ j = 0 then
        (if i < circ.n_nodes - 1 then
          Expr.sym (symbol_factory ("V" ++ circ.nodes_dict (i + 1)) {})
        else
          Expr.sym (symbol_factory ("I[" ++
            ((circ.elements.filter (fun e => is_elem_voltage_defined e)).map
              (fun e => strUpper e.part_id)).getD (i - (circ.n_nodes - 1)) "" ++ "]") {}))
      else Expr.num 0) := by
  have hlen : ((circ.elements.filter (fun e => is_elem_voltage_defined e)).map
      (fun e => strUpper e.part_id)).length = countVde circ.elements := by
    simp [countVde, vdeList]
  have hB : ∀ (x : Mat) (i : Nat),
      (if i < circ.n_nodes - 1 then
        x.set i 0 (Expr.sym (symbol_factory ("V" ++ circ.nodes_dict (i + 1)) {}))
      else
        x.set i 0 (Expr.sym (symbol_factory ("I[" ++
          ((circ.elements.filter (fun e => is_elem_voltage_defined e)).map
            (fun e => strUpper e.part_id)).getD (i - (circ.n_nodes - 1)) "" ++ "]") {}))) =
      x.set i 0
        (if i < circ.n_nodes - 1 then
          Expr.sym (symbol_factory ("V" ++ circ.nodes_dict (i + 1)) {})
        else
          Expr.sym (symbol_factory ("I[" ++
            ((circ.elements.filter (fun e => is_elem_voltage_defined e)).map
              (fun e => strUpper e.part_id)).getD (i - (circ.n_nodes - 1)) "" ++ "]") {})) := by
    intro x i
    by_cases h : i < circ.n_nodes - 1 <;> simp [h]
  obtain ⟨hr, hc, hent⟩ := foldl_set_col0 _ _ hB
    ((circ.n_nodes - 1) +
      ((circ.elements.filter (fun e => is_elem_voltage_defined e)).map
        (fun e => strUpper e.part_id)).length)
    (smzeros ((circ.n_nodes - 1) +
      ((circ.elements.filter (fun e => is_elem_voltage_defined e)).map
        (fun e => strUpper e.part_id)).length) 1)
  refine ⟨?_, ?_, ?_⟩
  · rw [← hlen]
    exact hr
  · exact hc
  · intro i j
    rw [← hlen]
    exact hent i j

/-- C2: the unknown vector of `get_variables` lists the node-voltage
unknowns first (node index ascending, reference node excluded), then one
branch-current unknown per voltage-defined element in circuit iteration
order — and this coincides with the assembler's assignment: after pass 2
the `k`-th voltage-defined element's KCL coupling occupies column
`n_nodes + k` (which the caller's reference-node reduction maps to
reduced index `(n_nodes - 1) + k`, the position of `I[...]` in the
unknown vector), while rows below `n_nodes` keep the node equations. -/
theorem C2_unknown_ordering (circ : Circuit) (r0s ac : Bool)
    (hall : ∀ e ∈ circ.elements, pass2_elem_ok circ e = true) :
    ((get_variables circ).rows = (circ.n_nodes - 1) + countVde circ.elements) ∧
    (∀ i, i < circ.n_nodes - 1 →
      (get_variables circ).entry i 0 =
        Expr.sym (symbol_factory ("V" ++ circ.nodes_dict (i + 1)) {})) ∧
    (∀ k, k < countVde circ.elements →
      (get_variables circ).entry ((circ.n_nodes - 1) + k) 0 =
        Expr.sym (symbol_factory
          ("I[" ++ strUpper (vdeAt circ.elements k).part_id ++ "]") {})) ∧
    (∃ st', pass2 circ ac (pass1 circ r0s ac) circ.elements = Except.ok st' ∧
      st'.mna.rows = circ.n_nodes + countVde circ.elements ∧
      st'.mna.cols = circ.n_nodes + countVde circ.elements ∧
      st'.N.rows = circ.n_nodes + countVde circ.elements ∧
      (∀ k, k < countVde circ.elements →
        st'.mna.entry (vdeAt circ.elements k).n1 (circ.n_nodes + k) = Expr.num 1 ∧
        st'.mna.entry (vdeAt circ.elements k).n2 (circ.n_nodes + k) = Expr.num (-1))) := by
  obtain ⟨hr, hc, hent⟩ := get_variables_char circ
  refine ⟨hr, ?_, ?_, ?_⟩
  · intro i hi
    rw [hent]
    have h1 : i < (circ.n_nodes - 1) + countVde circ.elements ∧ (0 : Nat) = 0 :=
      ⟨by omega, rfl⟩
    rw [if_pos h1, if_pos hi]
  · intro k hk
    rw [hent]
    have h1 : (circ.n_nodes - 1) + k < (circ.n_nodes - 1) + countVde circ.elements ∧
        (0 : Nat) = 0 := ⟨by omega, rfl⟩
    have h2 : ¬((circ.n_nodes - 1) + k < circ.n_nodes - 1) := by omega
    rw [if_pos h1, if_neg h2]
    have h3 : (circ.n_nodes - 1) + k - (circ.n_nodes - 1) = k := by omega
    rw [h3]
    have h4 : k < (circ.elements.filter (fun e => is_elem_voltage_defined e)).length := by
      simpa [countVde, vdeList] using hk
    rw [getD_map_lt (fun e => strUpper e.part_id)
      (circ.elements.filter (fun e => is_elem_voltage_defined e)) k ""
      (Element.other "" 0 0 false) h4]
    rfl
  · obtain ⟨hp1, hp2, hp3⟩ := pass1_sizes circ r0s ac
    obtain ⟨st', hpass, hr', hc', hN', hent', hpres⟩ :=
      pass2_assign circ ac circ.elements (pass1 circ r0s ac) hall
        (hp2.trans hp1.symm) (hp3.trans hp1.symm) (le_of_eq hp1.symm)
    refine ⟨st', hpass, ?_, ?_, ?_, ?_⟩
    · rw [hr', hp1]
    · rw [hc', hp1]
    · rw [hN', hp1]
    · intro k hk
      have := hent' k hk
      rw [hp1] at this
      exact this

/-- Witness for C2 on a concrete wellformed circuit. -/
theorem C2_unknown_ordering_witness :
    (∀ e ∈ circVRL.elements, pass2_elem_ok circVRL e = true) ∧
    (((get_variables circVRL).rows =
        (circVRL.n_nodes - 1) + countVde circVRL.elements) ∧
    (∀ i, i < circVRL.n_nodes - 1 →
      (get_variables circVRL).entry i 0 =
        Expr.sym (symbol_factory ("V" ++ circVRL.nodes_dict (i + 1)) {})) ∧
    (∀ k, k < countVde circVRL.elements →
      (get_variables circVRL).entry ((circVRL.n_nodes - 1) + k) 0 =
        Expr.sym (symbol_factory
          ("I[" ++ strUpper (vdeAt circVRL.elements k).part_id ++ "]") {})) ∧
    (∃ st', pass2 circVRL true (pass1 circVRL false true) circVRL.elements =
        Except.ok st' ∧
      st'.mna.rows = circVRL.n_nodes + countVde circVRL.elements ∧
      st'.mna.cols = circVRL.n_nodes + countVde circVRL.elements ∧
      st'.N.rows = circVRL.n_nodes + countVde circVRL.elements ∧
      (∀ k, k < countVde circVRL.elements →
        st'.mna.entry (vdeAt circVRL.elements k).n1 (circVRL.n_nodes + k) =
          Expr.num 1 ∧
        st'.mna.entry (vdeAt circVRL.elements k).n2 (circVRL.n_nodes + k) =
          Expr.num (-1)))) :=
  ⟨by decide, C2_unknown_ordering circVRL false true (by decide)⟩

end AhkabSymbolic
